import Mathlib

/-!
# Verification of the bullreckon shared queue / websocket subsystem

Shallow embedding of `src/shared/py/queueManager.py`,
`src/shared/py/redisManager.py` and `src/shared/py/webSocketServer.py`.

The Redis store is modelled as a function-valued key-value map plus a
function-valued map of lists (a Redis instance is a finite map; the total
function model is its semantic content).  Python methods that may raise are
embedded with an `Except` codomain; methods that silently return a default
on an unconnected client return `.ok` of that default, exactly as the
Python code does.  Timestamps are passed explicitly as `Nat` parameters
standing for the value of `datetime.now()` at the call.
-/

/-- Python-level exceptions that the modelled code can raise. -/
inductive PyErr where
  | attributeError
  | runtimeError
deriving DecidableEq, Repr

/-- The connected Redis client: a key-value store (values of type `α`)
and named lists (as used by `lpush`/`rpop`). -/
structure RedisClient (α : Type) where
  kv : String → Option α
  lists : String → List String

/-- Embeds `RedisManager`: `client` is `None` until `connect` is called. -/
structure RedisManager (α : Type) where
  client : Option (RedisClient α)

/-- Overwrite one key of the key-value store. -/
def kvSet {α : Type} (c : RedisClient α) (k : String) (v : α) : RedisClient α :=
  { c with kv := fun k2 => if k2 = k then some v else c.kv k2 }

/-- Delete one key of the key-value store. -/
def kvDel {α : Type} (c : RedisClient α) (k : String) : RedisClient α :=
  { c with kv := fun k2 => if k2 = k then none else c.kv k2 }

/-- Overwrite one named list. -/
def listSet {α : Type} (c : RedisClient α) (k : String) (l : List String) : RedisClient α :=
  { c with lists := fun k2 => if k2 = k then l else c.lists k2 }

/-- `RedisManager.get`: returns `None` when the client was never connected. -/
def RedisManager.get {α : Type} (rm : RedisManager α) (key : String) :
    Except PyErr (Option α) :=
  match rm.client with
  | none => .ok none
  | some c => .ok (c.kv key)

/-- `RedisManager.set`: returns `False` (and writes nothing) when the client
was never connected; otherwise writes and returns `True`. -/
def RedisManager.set {α : Type} (rm : RedisManager α) (key : String) (value : α) :
    Except PyErr (Bool × RedisManager α) :=
  match rm.client with
  | none => .ok (false, rm)
  | some c => .ok (true, ⟨some (kvSet c key value)⟩)

/-- `RedisManager.delete`: returns `0` when the client was never connected. -/
def RedisManager.del {α : Type} (rm : RedisManager α) (key : String) :
    Except PyErr (Nat × RedisManager α) :=
  match rm.client with
  | none => .ok (0, rm)
  | some c =>
    match c.kv key with
    | none => .ok (0, rm)
    | some _ => .ok (1, ⟨some (kvDel c key)⟩)

/-- `RedisManager.exists`: returns `False` when the client was never connected. -/
def RedisManager.existsKey {α : Type} (rm : RedisManager α) (key : String) :
    Except PyErr Bool :=
  match rm.client with
  | none => .ok false
  | some c => .ok (c.kv key).isSome

/-- `RedisManager.pipeline`: the one wrapper that raises (`RuntimeError`)
on an unconnected client. -/
def RedisManager.pipelineCheck {α : Type} (rm : RedisManager α) : Except PyErr Unit :=
  match rm.client with
  | none => .error .runtimeError
  | some _ => .ok ()

/-- Direct attribute access `self.redis.client.lpush(...)` as performed by
`QueueManager.add_job`: raises `AttributeError` when `client` is `None`. -/
def clientLpush {α : Type} (rm : RedisManager α) (key v : String) :
    Except PyErr (RedisManager α) :=
  match rm.client with
  | none => .error .attributeError
  | some c => .ok ⟨some (listSet c key (v :: c.lists key))⟩

/-- Direct attribute access `self.redis.client.rpop(...)` as performed by
`QueueManager.process_queue`: raises `AttributeError` when `client` is `None`. -/
def clientRpop {α : Type} (rm : RedisManager α) (key : String) :
    Except PyErr (Option String × RedisManager α) :=
  match rm.client with
  | none => .error .attributeError
  | some c =>
    match (c.lists key).getLast? with
    | none => .ok (none, rm)
    | some v => .ok (some v, ⟨some (listSet c key (c.lists key).dropLast)⟩)

/-- The key-value entry under `k`, seen through a manager (`none` when
unconnected). -/
def rmKvAt {α : Type} (rm : RedisManager α) (k : String) : Option α :=
  match rm.client with
  | none => none
  | some c => c.kv k

/-- The list entry under `k`, seen through a manager (`[]` when
unconnected). -/
def rmListAt {α : Type} (rm : RedisManager α) (k : String) : List String :=
  match rm.client with
  | none => []
  | some c => c.lists k

/-- A job record as serialized by `QueueManager.add_job` /
`QueueManager.update_job_status`. -/
structure Job where
  id : String
  queue : String
  data : String
  status : String
  created_at : Nat
  updated_at : Nat
  result : Option String
deriving DecidableEq, Repr

/-- Key under which a job record is stored: `f"job:{job_id}"`. -/
def jobKey (id : String) : String := "job:" ++ id

/-- Key of a queue list: `f"queue:{queue_name}"`. -/
def queueKey (qn : String) : String := "queue:" ++ qn

/-- First-match lookup in an insertion-ordered association list
(Python `dict` access / `dict.get`). -/
def lookupA {α : Type} (k : String) : List (String × α) → Option α
  | [] => none
  | (k2, v) :: rest => if k2 = k then some v else lookupA k rest

/-- Python `dict` assignment: overwrite in place when the key is present,
append otherwise (insertion order preserved). -/
def dictSet {α : Type} (k : String) (v : α) : List (String × α) → List (String × α)
  | [] => [(k, v)]
  | (k2, v2) :: rest => if k2 = k then (k, v) :: rest else (k2, v2) :: dictSet k v rest

/-- A registered queue handler: takes the job payload, returns the handler
result or the description (`str(e)`) of the exception it raised. -/
def Handler : Type := String → Except String String

/-- Embeds `QueueManager`: the Redis manager, the process-local `self.jobs`
mirror, and the `self.handlers` registry. -/
structure QueueManager where
  redis : RedisManager Job
  jobs : List (String × Job)
  handlers : List (String × Handler)

/-- Store-level events emitted by the queue operations, in program order. -/
inductive QEvent where
  | putJob (id status : String)
  | push (queue id : String)
  | pop (queue : String) (id : Option String)
  | invokeHandler (queue id : String)
  | sleep (n : Nat)
deriving DecidableEq, Repr

/-- The id `add_job` resolves: the caller-supplied id when given, else
`f"{queue_name}_{int(datetime.now().timestamp() * 1000)}"`. -/
def resolveId (queue_name : String) (job_id : Option String) (now : Nat) : String :=
  match job_id with
  | some i => i
  | none => queue_name ++ "_" ++ toString now

/-- `QueueManager.add_job`: builds the record with status `"queued"` and both
timestamps, stores it via `redis.set` (return value ignored, as in the
source), then pushes the id via `redis.client.lpush`, updates the local
mirror and returns the id.  `now` is the millisecond timestamp. -/
def add_job (qm : QueueManager) (queue_name job_data : String)
    (job_id : Option String) (now : Nat) :
    Except PyErr (String × QueueManager × List QEvent) :=
  let jid := resolveId queue_name job_id now
  let job : Job :=
    { id := jid, queue := queue_name, data := job_data, status := "queued",
      created_at := now, updated_at := now, result := none }
  match qm.redis.set (jobKey jid) job with
  | .error e => .error e
  | .ok (_b, r1) =>
    match clientLpush r1 (queueKey queue_name) jid with
    | .error e => .error e
    | .ok r2 =>
      .ok (jid,
           { qm with redis := r2, jobs := dictSet jid job qm.jobs },
           [QEvent.putJob jid "queued", QEvent.push queue_name jid])

/-- `QueueManager.get_job`: re-fetch the record from the store. -/
def get_job (qm : QueueManager) (job_id : String) : Except PyErr (Option Job) :=
  qm.redis.get (jobKey job_id)

/-- `QueueManager.update_job_status`: re-read the record; when present,
overwrite its status and `updated_at` (and `result` only when a result is
given), write it back and update the local mirror.  A missing record is a
silent no-op.  No validation of the new status against the old one. -/
def update_job_status (qm : QueueManager) (job_id status : String)
    (result : Option String) (now : Nat) :
    Except PyErr (QueueManager × List QEvent) :=
  match get_job qm job_id with
  | .error e => .error e
  | .ok none => .ok (qm, [])
  | .ok (some job) =>
    let job2 : Job :=
      { job with status := status, updated_at := now,
                 result := match result with | some r => some r | none => job.result }
    match qm.redis.set (jobKey job_id) job2 with
    | .error e => .error e
    | .ok (_b, r1) =>
      .ok ({ qm with redis := r1, jobs := dictSet job_id job2 qm.jobs },
           [QEvent.putJob job_id status])

/-- `QueueManager.register_handler`: last registration wins. -/
def register_handler (qm : QueueManager) (queue_name : String) (h : Handler) :
    QueueManager :=
  { qm with handlers := dictSet queue_name h qm.handlers }

/-- Outcome of one iteration of the `process_queue` loop body. -/
inductive StepOutcome where
  | idle
  | missingRecord (id : String)
  | handled (id : String) (final : String)
  | errorBackoff (e : PyErr)
deriving DecidableEq, Repr

/-- One iteration of the body of `QueueManager.process_queue`'s `while True`
inside the `try`: pop an id, skip when the record is absent, mark
`"processing"`, run the handler (or fail with `"No handler"`), mark the
terminal status. -/
def processStepInner (qm : QueueManager) (queue_name : String) (now : Nat) :
    Except PyErr (QueueManager × StepOutcome × List QEvent) :=
  match clientRpop qm.redis (queueKey queue_name) with
  | .error e => .error e
  | .ok (none, r1) =>
    .ok ({ qm with redis := r1 }, .idle, [QEvent.pop queue_name none, QEvent.sleep 1])
  | .ok (some job_id, r1) =>
    let qm1 : QueueManager := { qm with redis := r1 }
    match get_job qm1 job_id with
    | .error e => .error e
    | .ok none => .ok (qm1, .missingRecord job_id, [QEvent.pop queue_name (some job_id)])
    | .ok (some job) =>
      match update_job_status qm1 job_id "processing" none now with
      | .error e => .error e
      | .ok (qm2, ev1) =>
        match lookupA queue_name qm2.handlers with
        | some h =>
          match h job.data with
          | .ok result =>
            match update_job_status qm2 job_id "completed" (some result) now with
            | .error e => .error e
            | .ok (qm3, ev2) =>
              .ok (qm3, .handled job_id "completed",
                   QEvent.pop queue_name (some job_id) :: ev1 ++
                     QEvent.invokeHandler queue_name job_id :: ev2)
          | .error emsg =>
            match update_job_status qm2 job_id "failed" (some emsg) now with
            | .error e => .error e
            | .ok (qm3, ev2) =>
              .ok (qm3, .handled job_id "failed",
                   QEvent.pop queue_name (some job_id) :: ev1 ++
                     QEvent.invokeHandler queue_name job_id :: ev2)
        | none =>
          match update_job_status qm2 job_id "failed" (some "No handler") now with
          | .error e => .error e
          | .ok (qm3, ev2) =>
            .ok (qm3, .handled job_id "failed",
                 QEvent.pop queue_name (some job_id) :: ev1 ++ ev2)

/-- One iteration of `process_queue` including the surrounding
`try/except`: any exception is caught, logged, and answered with a
5-unit backoff; the loop itself never terminates. -/
def processStep (qm : QueueManager) (queue_name : String) (now : Nat) :
    QueueManager × StepOutcome × List QEvent :=
  match processStepInner qm queue_name now with
  | .ok r => r
  | .error e => (qm, .errorBackoff e, [QEvent.sleep 5])

/-- The job record currently persisted for `id`, as seen through the store. -/
def storeGet (qm : QueueManager) (id : String) : Option Job :=
  match qm.redis.client with
  | none => none
  | some c => c.kv (jobKey id)

/-- The current contents of the queue list for `qn` (head = most recently
pushed). -/
def queueOf (qm : QueueManager) (qn : String) : List String :=
  match qm.redis.client with
  | none => []
  | some c => c.lists (queueKey qn)

/-- The forward order of the job-status lifecycle:
`queued → processing → {completed, failed}` (reflexive). -/
def statusFwd (a b : String) : Bool :=
  (a == b) || (a == "queued") || (a == "processing" && (b == "completed" || b == "failed"))

/-- The statuses this subsystem writes. -/
def StatusOk (s : String) : Prop :=
  s = "queued" ∨ s = "processing" ∨ s = "completed" ∨ s = "failed"

/-- State invariant of the queue subsystem: every persisted status is one of
the four lifecycle statuses; a `"queued"` job sits in exactly one queue list
exactly once; a job past `"queued"` sits in no queue list. -/
def QInv (qm : QueueManager) : Prop :=
  ∀ id j, storeGet qm id = some j →
    StatusOk j.status ∧
    (j.status = "queued" →
      ∃ qn, (queueOf qm qn).count id = 1 ∧ ∀ qn2, qn2 ≠ qn → id ∉ queueOf qm qn2) ∧
    (j.status ≠ "queued" → ∀ qn, id ∉ queueOf qm qn)

/-- The operations of the queue subsystem named by the spec: enqueue,
handler registration, direct status writes, and one worker iteration. -/
inductive QOp where
  | add (queue data : String) (givenId : Option String) (now : Nat)
  | register (queue : String) (h : Handler)
  | update (id status : String) (result : Option String) (now : Nat)
  | work (queue : String) (now : Nat)

/-- Apply one operation (a raised exception leaves the pre-state; in this
model an exception can only occur before any store mutation). -/
def runOp (qm : QueueManager) : QOp → QueueManager
  | .add qn d i n =>
    match add_job qm qn d i n with
    | .ok (_, qm2, _) => qm2
    | .error _ => qm
  | .register qn h => register_handler qm qn h
  | .update id st r n =>
    match update_job_status qm id st r n with
    | .ok (qm2, _) => qm2
    | .error _ => qm
  | .work qn n => (processStep qm qn n).1

/-- Apply a sequence of operations. -/
def runOps (qm : QueueManager) (ops : List QOp) : QueueManager := ops.foldl runOp qm

/-- Side conditions of the amended monotonicity claim: enqueues use fresh
ids (no existing record, not present in any queue list) and no direct
(unvalidated) `update_job_status` calls occur. -/
def OpOk (qm : QueueManager) : QOp → Prop
  | .add qn _d i n =>
    storeGet qm (resolveId qn i n) = none ∧ ∀ qn2, resolveId qn i n ∉ queueOf qm qn2
  | .register _ _ => True
  | .update _ _ _ _ => False
  | .work _ _ => True

/-- `Safe qm ops`: every operation of `ops` satisfies its side condition in
the state where it runs. -/
def Safe (qm : QueueManager) : List QOp → Prop
  | [] => True
  | op :: rest => OpOk qm op ∧ Safe (runOp qm op) rest

/-- Recognizes a record write among the step events. -/
def isPut : QEvent → Bool
  | .putJob _ _ => true
  | _ => false

/-- Whether an embedded Python call raised. -/
def exceptIsError {ε α : Type} : Except ε α → Bool
  | .error _ => true
  | .ok _ => false

/-- A connected manager over an empty store. -/
def qmEmpty : QueueManager :=
  ⟨⟨some ⟨fun _ => none, fun _ => []⟩⟩, [], []⟩

/-- A never-connected string-valued manager. -/
def rmNone : RedisManager String := ⟨none⟩

/-- A queue manager over a never-connected store. -/
def qmNone : QueueManager := ⟨⟨none⟩, [], []⟩

/-!
## WebSocket connection registry (`webSocketServer.py`)

Association lists model Python dicts (insertion ordered); a user's
connection set is a duplicate-free list.  WebSocket handles are opaque
`Nat` tokens; whether a `send_json` on a handle succeeds is supplied as a
`sendOk : Nat → Bool` oracle.  `uuid.uuid4()` is modelled by passing the
generated connection id as a parameter (freshness becomes a hypothesis).
-/

/-- Embeds the registry state of `WebSocketServer`. -/
structure WSServer where
  active_connections : List (String × Nat)
  user_connections : List (String × List String)
  pubsub_task : Option Nat
deriving DecidableEq, Repr

/-- `WebSocketServer.connect` without the pub/sub part: accept, register the
handle under the fresh id, and add the id to the user's set when a user id
is given (creating the set if needed). -/
def wsConnect (w : WSServer) (cid : String) (handle : Nat) (user : Option String) :
    WSServer :=
  let w1 : WSServer :=
    { w with active_connections := dictSet cid handle w.active_connections }
  match user with
  | none => w1
  | some uid =>
    match lookupA uid w1.user_connections with
    | none =>
      { w1 with user_connections := dictSet uid [cid] w1.user_connections }
    | some conns =>
      let conns2 := if cid ∈ conns then conns else conns ++ [cid]
      { w1 with user_connections := dictSet uid conns2 w1.user_connections }

/-- The user-set removal loop of `WebSocketServer.disconnect`: find the first
user whose set holds the id, remove the id from that set, drop the user
entry when the set becomes empty, and stop (`break`). -/
def removeFromUsers (cid : String) : List (String × List String) → List (String × List String)
  | [] => []
  | (uid, conns) :: rest =>
    if cid ∈ conns then
      let conns2 := conns.erase cid
      if conns2.isEmpty then rest else (uid, conns2) :: rest
    else (uid, conns) :: removeFromUsers cid rest

/-- `WebSocketServer.disconnect`: a no-op for an unknown id; otherwise close
the handle (best-effort, failures swallowed — no registry effect), drop the
id from the connection map and run the user-set removal loop. -/
def wsDisconnect (w : WSServer) (cid : String) : WSServer :=
  match lookupA cid w.active_connections with
  | none => w
  | some _h =>
    { w with
      active_connections := w.active_connections.filter (fun p => p.1 ≠ cid),
      user_connections := removeFromUsers cid w.user_connections }

/-- `WebSocketServer.send_to_connection`: `False` for an unknown id; on a
send failure, disconnect the id and return `False`.  The message content
does not influence the registry. -/
def send_to_connection (sendOk : Nat → Bool) (w : WSServer) (cid : String)
    (_msg : String) : Bool × WSServer :=
  match lookupA cid w.active_connections with
  | none => (false, w)
  | some h => if sendOk h then (true, w) else (false, wsDisconnect w cid)

/-- The fan-out loop of `send_to_user` over the snapshot of the user's set. -/
def sendToUserGo (sendOk : Nat → Bool) (msg : String) :
    List String → WSServer → Nat × WSServer
  | [], w => (0, w)
  | cid :: rest, w =>
    let r1 := send_to_connection sendOk w cid msg
    let r2 := sendToUserGo sendOk msg rest r1.2
    ((if r1.1 then 1 else 0) + r2.1, r2.2)

/-- `WebSocketServer.send_to_user`: `0` for a user with no registered
connections; otherwise fan out over a snapshot (`copy()`) of the set. -/
def send_to_user (sendOk : Nat → Bool) (w : WSServer) (uid msg : String) :
    Nat × WSServer :=
  match lookupA uid w.user_connections with
  | none => (0, w)
  | some conns => sendToUserGo sendOk msg conns w

/-- The owner search inside `broadcast`: the first user whose set holds the
connection id. -/
def findOwner (cid : String) : List (String × List String) → Option String
  | [] => none
  | (uid, conns) :: rest => if cid ∈ conns then some uid else findOwner cid rest

/-- The fan-out loop of `broadcast` over the snapshot
(`list(self.active_connections.items())`); the third component records the
connection ids actually send-attempted (deliveries), in order. -/
def broadcastGo (sendOk : Nat → Bool) (exclude : Option String) (msg : String) :
    List (String × Nat) → WSServer → Nat × WSServer × List String
  | [], w => (0, w, [])
  | (cid, _h) :: rest, w =>
    let skip : Bool :=
      match exclude with
      | none => false
      | some ex =>
        match findOwner cid w.user_connections with
        | some uid => uid = ex
        | none => false
    if skip then broadcastGo sendOk exclude msg rest w
    else
      let r1 := send_to_connection sendOk w cid msg
      let r2 := broadcastGo sendOk exclude msg rest r1.2
      ((if r1.1 then 1 else 0) + r2.1, r2.2.1, cid :: r2.2.2)

/-- `WebSocketServer.broadcast`: fan out to every live connection, skipping
connections whose (first-found) owner is `exclude`. -/
def wsBroadcast (sendOk : Nat → Bool) (w : WSServer) (msg : String)
    (exclude : Option String) : Nat × WSServer × List String :=
  broadcastGo sendOk exclude msg w.active_connections w

/-- The disconnect loop of `WebSocketServer.cleanup` over the snapshot of
connection ids. -/
def wsCleanupConnections (w : WSServer) : WSServer :=
  (w.active_connections.map Prod.fst).foldl wsDisconnect w

/-- Registry plus the background-task world of the process: `running` holds
the listener tasks currently alive, `nextTask` generates task identities,
`redisPresent` tells whether a Redis manager was supplied. -/
structure TaskWorld where
  ws : WSServer
  running : List Nat
  nextTask : Nat
  redisPresent : Bool
deriving DecidableEq, Repr

/-- Full `WebSocketServer.connect`: the registry part, then — when Redis is
available — `self.pubsub_task = asyncio.create_task(self._listen_pubsub())`,
which starts a fresh listener task and overwrites the stored handle of any
previous one without cancelling it. -/
def twConnect (tw : TaskWorld) (cid : String) (handle : Nat) (user : Option String) :
    TaskWorld :=
  let w1 := wsConnect tw.ws cid handle user
  if tw.redisPresent then
    { tw with
      ws := { w1 with pubsub_task := some tw.nextTask },
      running := tw.running ++ [tw.nextTask],
      nextTask := tw.nextTask + 1 }
  else { tw with ws := w1 }

/-- Full `WebSocketServer.cleanup`: disconnect every connection, then cancel
and await the single task stored in `pubsub_task` (if any). -/
def twCleanup (tw : TaskWorld) : TaskWorld :=
  let w1 := wsCleanupConnections tw.ws
  match w1.pubsub_task with
  | none => { tw with ws := w1 }
  | some t => { tw with ws := w1, running := tw.running.filter (fun t2 => t2 ≠ t) }

/-- Registry invariant: the connection map and user map are well-formed
dicts (no duplicate keys), every user's set is a non-empty duplicate-free
list of registered connection ids, and a connection id is owned by at most
one user entry. -/
def WInv (w : WSServer) : Prop :=
  (w.active_connections.map Prod.fst).Nodup ∧
  (w.user_connections.map Prod.fst).Nodup ∧
  (∀ p ∈ w.user_connections,
    p.2 ≠ [] ∧ p.2.Nodup ∧ ∀ cid ∈ p.2, cid ∈ w.active_connections.map Prod.fst) ∧
  (∀ p ∈ w.user_connections, ∀ cid ∈ p.2,
    (w.user_connections.filter (fun q => cid ∈ q.2)).length ≤ 1)

instance decWInv (w : WSServer) : Decidable (WInv w) := by
  unfold WInv
  infer_instance

/-- A fresh server with Redis available, before any connect. -/
def twFresh : TaskWorld := ⟨⟨[], [], none⟩, [], 0, true⟩

/-- A small concrete registry used by the witnesses: alice owns c1 and c2,
bob owns c3. -/
def wSample : WSServer :=
  ⟨[("c1", 1), ("c2", 2), ("c3", 3)], [("alice", ["c1", "c2"]), ("bob", ["c3"])], none⟩

/-- A registry in which alice's connections are the only connections. -/
def wAliceOnly : WSServer :=
  ⟨[("c1", 1), ("c2", 2)], [("alice", ["c1", "c2"])], none⟩

/-- A send oracle that fails on every handle (exercises the failure-cleanup
path). -/
def sendFail : Nat → Bool := fun _ => false

/-- A send oracle that succeeds on every handle. -/
def sendPass : Nat → Bool := fun _ => true

/-- A sample queued job record. -/
def jSample : Job := ⟨"j", "q", "d", "queued", 0, 0, none⟩

/-- A connected client holding `jSample` and its queue entry. -/
def cSample : RedisClient Job :=
  ⟨fun k => if k = jobKey "j" then some jSample else none,
   fun k => if k = queueKey "q" then ["j"] else []⟩

/-- A manager over `cSample` with no handler registered. -/
def qmNoHandler : QueueManager := ⟨⟨some cSample⟩, [], []⟩

/-- A handler that always raises with description `"boom"`. -/
def hBoom : Handler := fun _ => .error "boom"

/-- A manager over `cSample` whose only handler for `"q"` raises. -/
def qmBoom : QueueManager := ⟨⟨some cSample⟩, [], [("q", hBoom)]⟩

/-- A connected client whose queue `"q"` holds the id `"j"` with no backing
record. -/
def cGhost : RedisClient Job :=
  ⟨fun _ => none, fun k => if k = queueKey "q" then ["j"] else []⟩

/-- A manager over `cGhost`. -/
def qmGhost : QueueManager := ⟨⟨some cGhost⟩, [], []⟩

/-!
## Basic lemmas
-/

@[simp] theorem kvSet_kv_self {α : Type} (c : RedisClient α) (k : String) (v : α) :
    (kvSet c k v).kv k = some v := by simp [kvSet]

@[simp] theorem kvSet_lists {α : Type} (c : RedisClient α) (k : String) (v : α) :
    (kvSet c k v).lists = c.lists := rfl

@[simp] theorem listSet_kv {α : Type} (c : RedisClient α) (k : String) (l : List String) :
    (listSet c k l).kv = c.kv := rfl

@[simp] theorem listSet_lists_self {α : Type} (c : RedisClient α) (k : String) (l : List String) :
    (listSet c k l).lists k = l := by simp [listSet]

theorem kvSet_kv_other {α : Type} (c : RedisClient α) (k k2 : String) (v : α)
    (h : k2 ≠ k) : (kvSet c k v).kv k2 = c.kv k2 := by simp [kvSet, h]

theorem listSet_lists_other {α : Type} (c : RedisClient α) (k k2 : String) (l : List String)
    (h : k2 ≠ k) : (listSet c k l).lists k2 = c.lists k2 := by simp [listSet, h]

theorem jobKey_inj {a b : String} (h : jobKey a = jobKey b) : a = b := by
  have h2 : "job:".data ++ a.data = "job:".data ++ b.data := by
    have h3 := congrArg String.data h
    simpa [jobKey, String.data_append] using h3
  have h4 := List.append_cancel_left h2
  cases a; cases b; exact congrArg String.mk h4

theorem queueKey_inj {a b : String} (h : queueKey a = queueKey b) : a = b := by
  have h2 : "queue:".data ++ a.data = "queue:".data ++ b.data := by
    have h3 := congrArg String.data h
    simpa [queueKey, String.data_append] using h3
  have h4 := List.append_cancel_left h2
  cases a; cases b; exact congrArg String.mk h4

theorem statusFwd_refl (a : String) : statusFwd a a = true := by
  simp [statusFwd]

theorem statusFwd_trans {a b c : String} (h1 : statusFwd a b = true)
    (h2 : statusFwd b c = true) : statusFwd a c = true := by
  simp only [statusFwd, Bool.or_eq_true, Bool.and_eq_true, beq_iff_eq] at *
  rcases h1 with (h1 | h1) | ⟨hb, h1⟩
  · subst h1; exact h2
  · subst h1; simp
  · subst hb
    rcases h1 with h1 | h1 <;> subst h1 <;>
      rcases h2 with (h2 | h2) | ⟨h2, _⟩ <;> simp_all

theorem statusFwd_queued (b : String) : statusFwd "queued" b = true := by
  simp [statusFwd]

/-!
## Characterization of one worker-loop iteration
-/

/-- Empty pop: sleep and retry, state untouched. -/
theorem processStep_idle (qm : QueueManager) (qn : String) (now : Nat)
    (c : RedisClient Job) (hc : qm.redis.client = some c)
    (hl : c.lists (queueKey qn) = []) :
    processStep qm qn now = (qm, .idle, [QEvent.pop qn none, QEvent.sleep 1]) := by
  simp [processStep, processStepInner, clientRpop, hc, hl]

/-- Popped id with no backing record: the id is consumed, nothing else
changes, the loop continues. -/
theorem processStep_missing (qm : QueueManager) (qn : String) (now : Nat)
    (c : RedisClient Job) (id0 : String) (hc : qm.redis.client = some c)
    (hlast : (c.lists (queueKey qn)).getLast? = some id0)
    (hget : c.kv (jobKey id0) = none) :
    processStep qm qn now =
      ({ qm with redis := ⟨some (listSet c (queueKey qn) (c.lists (queueKey qn)).dropLast)⟩ },
       .missingRecord id0, [QEvent.pop qn (some id0)]) := by
  simp [processStep, processStepInner, clientRpop, get_job, RedisManager.get, hc, hlast, hget,
        listSet]

/-- Popped id with a record but no registered handler: mark `"processing"`
then `"failed"` with result `"No handler"`; the handler event never occurs
and the id is not pushed back. -/
theorem processStep_nohandler (qm : QueueManager) (qn : String) (now : Nat)
    (c : RedisClient Job) (id0 : String) (j0 : Job) (hc : qm.redis.client = some c)
    (hlast : (c.lists (queueKey qn)).getLast? = some id0)
    (hget : c.kv (jobKey id0) = some j0)
    (hh : lookupA qn qm.handlers = none) :
    processStep qm qn now =
      ({ qm with
          redis := ⟨some (kvSet
            (kvSet (listSet c (queueKey qn) (c.lists (queueKey qn)).dropLast)
              (jobKey id0) { j0 with status := "processing", updated_at := now })
            (jobKey id0)
            { j0 with status := "failed", updated_at := now, result := some "No handler" })⟩,
          jobs := dictSet id0
            { j0 with status := "failed", updated_at := now, result := some "No handler" }
            (dictSet id0 { j0 with status := "processing", updated_at := now } qm.jobs) },
       .handled id0 "failed",
       [QEvent.pop qn (some id0), QEvent.putJob id0 "processing",
        QEvent.putJob id0 "failed"]) := by
  simp [processStep, processStepInner, clientRpop, get_job, RedisManager.get,
        RedisManager.set, update_job_status, hc, hlast, hget, hh, listSet, kvSet]

/-- Popped id with a record and a handler that succeeds: mark `"processing"`,
invoke the handler, mark `"completed"` with the handler's result. -/
theorem processStep_handler_ok (qm : QueueManager) (qn : String) (now : Nat)
    (c : RedisClient Job) (id0 : String) (j0 : Job) (h : Handler) (res : String)
    (hc : qm.redis.client = some c)
    (hlast : (c.lists (queueKey qn)).getLast? = some id0)
    (hget : c.kv (jobKey id0) = some j0)
    (hh : lookupA qn qm.handlers = some h)
    (hrun : h j0.data = .ok res) :
    processStep qm qn now =
      ({ qm with
          redis := ⟨some (kvSet
            (kvSet (listSet c (queueKey qn) (c.lists (queueKey qn)).dropLast)
              (jobKey id0) { j0 with status := "processing", updated_at := now })
            (jobKey id0)
            { j0 with status := "completed", updated_at := now, result := some res })⟩,
          jobs := dictSet id0
            { j0 with status := "completed", updated_at := now, result := some res }
            (dictSet id0 { j0 with status := "processing", updated_at := now } qm.jobs) },
       .handled id0 "completed",
       [QEvent.pop qn (some id0), QEvent.putJob id0 "processing",
        QEvent.invokeHandler qn id0, QEvent.putJob id0 "completed"]) := by
  simp [processStep, processStepInner, clientRpop, get_job, RedisManager.get,
        RedisManager.set, update_job_status, hc, hlast, hget, hh, hrun, listSet, kvSet]

/-- Popped id with a record and a handler that raises: mark `"processing"`,
invoke the handler, mark `"failed"` with the error description as result. -/
theorem processStep_handler_err (qm : QueueManager) (qn : String) (now : Nat)
    (c : RedisClient Job) (id0 : String) (j0 : Job) (h : Handler) (emsg : String)
    (hc : qm.redis.client = some c)
    (hlast : (c.lists (queueKey qn)).getLast? = some id0)
    (hget : c.kv (jobKey id0) = some j0)
    (hh : lookupA qn qm.handlers = some h)
    (hrun : h j0.data = .error emsg) :
    processStep qm qn now =
      ({ qm with
          redis := ⟨some (kvSet
            (kvSet (listSet c (queueKey qn) (c.lists (queueKey qn)).dropLast)
              (jobKey id0) { j0 with status := "processing", updated_at := now })
            (jobKey id0)
            { j0 with status := "failed", updated_at := now, result := some emsg })⟩,
          jobs := dictSet id0
            { j0 with status := "failed", updated_at := now, result := some emsg }
            (dictSet id0 { j0 with status := "processing", updated_at := now } qm.jobs) },
       .handled id0 "failed",
       [QEvent.pop qn (some id0), QEvent.putJob id0 "processing",
        QEvent.invokeHandler qn id0, QEvent.putJob id0 "failed"]) := by
  simp [processStep, processStepInner, clientRpop, get_job, RedisManager.get,
        RedisManager.set, update_job_status, hc, hlast, hget, hh, hrun, listSet, kvSet]

/-- `add_job` on a connected manager, explicitly. -/
theorem add_job_eq (qm : QueueManager) (qn d : String) (i : Option String) (now : Nat)
    (c : RedisClient Job) (hc : qm.redis.client = some c) :
    add_job qm qn d i now =
      .ok (resolveId qn i now,
        { qm with
          redis := ⟨some (listSet (kvSet c (jobKey (resolveId qn i now))
              { id := resolveId qn i now, queue := qn, data := d, status := "queued",
                created_at := now, updated_at := now, result := none })
            (queueKey qn) (resolveId qn i now :: c.lists (queueKey qn)))⟩,
          jobs := dictSet (resolveId qn i now)
              { id := resolveId qn i now, queue := qn, data := d, status := "queued",
                created_at := now, updated_at := now, result := none } qm.jobs },
        [QEvent.putJob (resolveId qn i now) "queued",
         QEvent.push qn (resolveId qn i now)]) := by
  simp [add_job, RedisManager.set, clientLpush, hc]

/-!
## C4 — behavior of a never-connected store
-/

/-- C4 counterexample: on a never-connected store, `get`, `set`, `delete`
and `exists` return silently with absence/false defaults — no error is
raised at the call site, contrary to the claim. -/
theorem unconnected_store_silent_counterexample :
    rmNone.get "k" = .ok none ∧
    exceptIsError (rmNone.get "k") = false ∧
    rmNone.set "k" "v" = .ok (false, rmNone) ∧
    exceptIsError (rmNone.set "k" "v") = false ∧
    rmNone.del "k" = .ok (0, rmNone) ∧
    exceptIsError (rmNone.del "k") = false ∧
    rmNone.existsKey "k" = .ok false ∧
    exceptIsError (rmNone.existsKey "k") = false :=
  ⟨rfl, rfl, rfl, rfl, rfl, rfl, rfl, rfl⟩

/-- C4 (amended): on a store that was never connected, the wrapper
operations `get`/`set`/`delete`/`exists` silently return absence/false
defaults and are not retried; a hard failure at the call site occurs only
for `pipeline` (`RuntimeError`) and for the operations that dereference
`client` directly — `add_job`'s push raises `AttributeError`, and the
worker iteration's pop raises `AttributeError` (swallowed by the loop's
own backoff handler). -/
theorem unconnected_store_behavior (rm : RedisManager String) (qm : QueueManager)
    (hrm : rm.client = none) (hqm : qm.redis.client = none) :
    (∀ key, rm.get key = .ok none) ∧
    (∀ key v, rm.set key v = .ok (false, rm)) ∧
    (∀ key, rm.del key = .ok (0, rm)) ∧
    (∀ key, rm.existsKey key = .ok false) ∧
    rm.pipelineCheck = .error .runtimeError ∧
    (∀ qn d i n, add_job qm qn d i n = .error .attributeError) ∧
    (∀ qn n, processStep qm qn n =
      (qm, .errorBackoff .attributeError, [QEvent.sleep 5])) := by
  refine ⟨?_, ?_, ?_, ?_, ?_, ?_, ?_⟩ <;>
    simp [RedisManager.get, RedisManager.set, RedisManager.del, RedisManager.existsKey,
          RedisManager.pipelineCheck, add_job, clientLpush, clientRpop,
          processStep, processStepInner, hrm, hqm]

/-- Witness for `unconnected_store_behavior` at the concrete never-connected
manager. -/
theorem unconnected_store_behavior_witness :
    (∀ key, rmNone.get key = .ok none) ∧
    (∀ key v, rmNone.set key v = .ok (false, rmNone)) ∧
    (∀ key, rmNone.del key = .ok (0, rmNone)) ∧
    (∀ key, rmNone.existsKey key = .ok false) ∧
    rmNone.pipelineCheck = .error .runtimeError ∧
    (∀ qn d i n, add_job qmNone qn d i n = .error .attributeError) ∧
    (∀ qn n, processStep qmNone qn n =
      (qmNone, .errorBackoff .attributeError, [QEvent.sleep 5])) :=
  unconnected_store_behavior rmNone qmNone rfl rfl

/-!
## C3 — listener task lifecycle
-/

/-- C3 (code bug in the source): with Redis available, every `connect`
spawns a fresh listener task (its own subscription) and overwrites
`pubsub_task` without cancelling the previous task; after two connects two
listener tasks run concurrently, and `cleanup` cancels only the last one,
so the first listener task survives cleanup. -/
theorem listener_task_survives_cleanup :
    (twConnect (twConnect twFresh "c1" 1 none) "c2" 2 none).running = [0, 1] ∧
    (twConnect (twConnect twFresh "c1" 1 none) "c2" 2 none).running.length = 2 ∧
    (twCleanup (twConnect (twConnect twFresh "c1" 1 none) "c2" 2 none)).running = [0] ∧
    (twCleanup (twConnect (twConnect twFresh "c1" 1 none) "c2" 2 none)).running ≠ [] := by
  decide

/-!
## C5 — enqueue: record before push, unconditional id
-/

/-- C5: on a connected store, `add_job` persists the job record (status
`"queued"`, both timestamps set to the call time) strictly before pushing
the id onto the queue list — the event trace places the record write before
the push and the final state shows the record present with the id at the
head of the queue — and returns the resolved job id unconditionally: the
caller-supplied id when given, otherwise `<queue_name>_<ms-timestamp>`. -/
theorem add_job_record_before_push (qm : QueueManager) (qn d : String)
    (i : Option String) (now : Nat) (c : RedisClient Job)
    (hc : qm.redis.client = some c) :
    ∃ qm2 : QueueManager,
      add_job qm qn d i now =
        .ok (resolveId qn i now, qm2,
             [QEvent.putJob (resolveId qn i now) "queued",
              QEvent.push qn (resolveId qn i now)]) ∧
      storeGet qm2 (resolveId qn i now) =
        some { id := resolveId qn i now, queue := qn, data := d, status := "queued",
               created_at := now, updated_at := now, result := none } ∧
      queueOf qm2 qn = resolveId qn i now :: queueOf qm qn ∧
      (∀ s, i = some s → resolveId qn i now = s) ∧
      (i = none → resolveId qn i now = qn ++ "_" ++ toString now) := by
  refine ⟨_, add_job_eq qm qn d i now c hc, ?_, ?_, ?_, ?_⟩
  · simp [storeGet]
  · simp [queueOf, hc]
  · intro s hs; simp [resolveId, hs]
  · intro hs; simp [resolveId, hs]

/-- Witness for `add_job_record_before_push` on the empty connected store
with a caller-supplied id. -/
theorem add_job_record_before_push_witness :
    ∃ qm2 : QueueManager,
      add_job qmEmpty "q" "d" (some "j") 5 =
        .ok (resolveId "q" (some "j") 5, qm2,
             [QEvent.putJob (resolveId "q" (some "j") 5) "queued",
              QEvent.push "q" (resolveId "q" (some "j") 5)]) ∧
      storeGet qm2 (resolveId "q" (some "j") 5) =
        some { id := resolveId "q" (some "j") 5, queue := "q", data := "d",
               status := "queued", created_at := 5, updated_at := 5, result := none } ∧
      queueOf qm2 "q" = resolveId "q" (some "j") 5 :: queueOf qmEmpty "q" ∧
      (∀ s, (some "j" : Option String) = some s → resolveId "q" (some "j") 5 = s) ∧
      ((some "j" : Option String) = none →
        resolveId "q" (some "j") 5 = "q" ++ "_" ++ toString 5) :=
  add_job_record_before_push qmEmpty "q" "d" (some "j") 5 ⟨fun _ => none, fun _ => []⟩ rfl

/-!
## C7 — missing record: silent continue
-/

/-- C7: when the worker loop pops an id whose record is absent from the
store, it silently continues to the next iteration: nothing is written (the
store reads the same at every id), the mirror and handler registry are
untouched, the outcome is the continue case — not the exception-backoff
case — and only the polled queue list shrinks by the popped entry. -/
theorem worker_missing_record_continues (qm : QueueManager) (qn : String) (now : Nat)
    (c : RedisClient Job) (id0 : String) (hc : qm.redis.client = some c)
    (hlast : (c.lists (queueKey qn)).getLast? = some id0)
    (hget : c.kv (jobKey id0) = none) :
    ∃ qm2, processStep qm qn now = (qm2, .missingRecord id0, [QEvent.pop qn (some id0)]) ∧
      (∀ id, storeGet qm2 id = storeGet qm id) ∧
      qm2.jobs = qm.jobs ∧ qm2.handlers = qm.handlers ∧
      queueOf qm2 qn = (queueOf qm qn).dropLast ∧
      (∀ qn2, qn2 ≠ qn → queueOf qm2 qn2 = queueOf qm qn2) := by
  refine ⟨_, processStep_missing qm qn now c id0 hc hlast hget, ?_, rfl, rfl, ?_, ?_⟩
  · intro id; simp [storeGet, hc]
  · simp [queueOf, hc]
  · intro qn2 hne
    simp [queueOf, hc, listSet_lists_other _ _ _ _ (fun hkey => hne (queueKey_inj hkey))]

/-- Witness for `worker_missing_record_continues` on the concrete store
whose queue holds an id with no record. -/
theorem worker_missing_record_continues_witness :
    ∃ qm2, processStep qmGhost "q" 3 =
        (qm2, .missingRecord "j", [QEvent.pop "q" (some "j")]) ∧
      (∀ id, storeGet qm2 id = storeGet qmGhost id) ∧
      qm2.jobs = qmGhost.jobs ∧ qm2.handlers = qmGhost.handlers ∧
      queueOf qm2 "q" = (queueOf qmGhost "q").dropLast ∧
      (∀ qn2, qn2 ≠ "q" → queueOf qm2 qn2 = queueOf qmGhost qn2) :=
  worker_missing_record_continues qmGhost "q" 3 cGhost "j" rfl (by decide) rfl

/-!
## C2 — duplicate caller-supplied id
-/

/-- A pop from a two-element queue list removes exactly the tail occurrence. -/
theorem popStep_facts (rm : RedisManager Job) (c2 : RedisClient Job)
    (key jk j : String) (rec : Job)
    (hc : rm.client = some c2) (hl : c2.lists key = [j, j]) (hkv : c2.kv jk = some rec) :
    ∃ r3, clientRpop rm key = .ok (some j, r3) ∧
      rmListAt r3 key = [j] ∧ rmKvAt r3 jk = some rec := by
  have hg : ([j, j] : List String).getLast? = some j := rfl
  have hd : ([j, j] : List String).dropLast = [j] := rfl
  refine ⟨⟨some (listSet c2 key [j])⟩, ?_, ?_, ?_⟩
  · simp [clientRpop, hc, hl, hg, hd]
  · simp [rmListAt]
  · simp [rmKvAt, hkv]

/-- C2: calling `add_job` twice with the same caller-supplied id: both calls
succeed without validation or error, the second record overwrites the first
(last write wins), the queue list then contains the id twice, and a single
worker pop removes exactly one occurrence — the other remains in the queue,
still backed by the overwriting record, to be popped and processed again. -/
theorem duplicate_id_overwrite_and_reprocess (qm : QueueManager) (qn d1 d2 j : String)
    (t1 t2 : Nat) (c : RedisClient Job) (hc : qm.redis.client = some c)
    (hq : c.lists (queueKey qn) = []) :
    ∃ qm1 qm2,
      add_job qm qn d1 (some j) t1 =
        .ok (j, qm1, [QEvent.putJob j "queued", QEvent.push qn j]) ∧
      add_job qm1 qn d2 (some j) t2 =
        .ok (j, qm2, [QEvent.putJob j "queued", QEvent.push qn j]) ∧
      storeGet qm2 j = some { id := j, queue := qn, data := d2, status := "queued",
                              created_at := t2, updated_at := t2, result := none } ∧
      queueOf qm2 qn = [j, j] ∧
      ∃ r3, clientRpop qm2.redis (queueKey qn) = .ok (some j, r3) ∧
        rmListAt r3 (queueKey qn) = [j] ∧
        rmKvAt r3 (jobKey j) =
          some { id := j, queue := qn, data := d2, status := "queued",
                 created_at := t2, updated_at := t2, result := none } := by
  refine ⟨_, _, add_job_eq qm qn d1 (some j) t1 c hc,
          add_job_eq _ qn d2 (some j) t2 _ rfl, ?_, ?_, ?_⟩
  · simp [storeGet, resolveId]
  · simp [queueOf, hq, resolveId]
  · exact popStep_facts _ _ _ _ _ _ rfl
      (by simp [hq, resolveId, listSet, kvSet])
      (by simp [resolveId, listSet, kvSet])

/-- Witness for `duplicate_id_overwrite_and_reprocess` on the empty
connected store. -/
theorem duplicate_id_overwrite_and_reprocess_witness :
    ∃ qm1 qm2,
      add_job qmEmpty "q" "d1" (some "j") 1 =
        .ok ("j", qm1, [QEvent.putJob "j" "queued", QEvent.push "q" "j"]) ∧
      add_job qm1 "q" "d2" (some "j") 2 =
        .ok ("j", qm2, [QEvent.putJob "j" "queued", QEvent.push "q" "j"]) ∧
      storeGet qm2 "j" = some { id := "j", queue := "q", data := "d2", status := "queued",
                                created_at := 2, updated_at := 2, result := none } ∧
      queueOf qm2 "q" = ["j", "j"] ∧
      ∃ r3, clientRpop qm2.redis (queueKey "q") = .ok (some "j", r3) ∧
        rmListAt r3 (queueKey "q") = ["j"] ∧
        rmKvAt r3 (jobKey "j") =
          some { id := "j", queue := "q", data := "d2", status := "queued",
                 created_at := 2, updated_at := 2, result := none } :=
  duplicate_id_overwrite_and_reprocess qmEmpty "q" "d1" "d2" "j" 1 2
    ⟨fun _ => none, fun _ => []⟩ rfl rfl

/-!
## C6 — worker failure paths
-/

/-- C6: for a popped job, (a) with no handler registered for the queue the
job ends `"failed"` with result exactly `"No handler"` and no handler
invocation occurs; (b) with a registered handler that raises, the job ends
`"failed"` with the error description stored as result.  In both cases the
step emits no push event and the queue list only shrinks — the id is not
re-queued (no automatic retry). -/
theorem worker_failed_jobs_not_requeued :
    (∀ qm qn now c id0 j0,
       qm.redis.client = some c →
       (c.lists (queueKey qn)).getLast? = some id0 →
       c.kv (jobKey id0) = some j0 →
       lookupA qn qm.handlers = none →
       ∃ qm2, processStep qm qn now =
           (qm2, .handled id0 "failed",
            [QEvent.pop qn (some id0), QEvent.putJob id0 "processing",
             QEvent.putJob id0 "failed"]) ∧
         storeGet qm2 id0 =
           some { j0 with status := "failed", updated_at := now,
                          result := some "No handler" } ∧
         (∀ q i, QEvent.invokeHandler q i ∉ (processStep qm qn now).2.2) ∧
         (∀ q i, QEvent.push q i ∉ (processStep qm qn now).2.2) ∧
         queueOf qm2 qn = (queueOf qm qn).dropLast) ∧
    (∀ qm qn now c id0 j0 h emsg,
       qm.redis.client = some c →
       (c.lists (queueKey qn)).getLast? = some id0 →
       c.kv (jobKey id0) = some j0 →
       lookupA qn qm.handlers = some h →
       h j0.data = .error emsg →
       ∃ qm2, processStep qm qn now =
           (qm2, .handled id0 "failed",
            [QEvent.pop qn (some id0), QEvent.putJob id0 "processing",
             QEvent.invokeHandler qn id0, QEvent.putJob id0 "failed"]) ∧
         storeGet qm2 id0 =
           some { j0 with status := "failed", updated_at := now, result := some emsg } ∧
         (∀ q i, QEvent.push q i ∉ (processStep qm qn now).2.2) ∧
         queueOf qm2 qn = (queueOf qm qn).dropLast) := by
  constructor
  · intro qm qn now c id0 j0 hc hlast hget hh
    have hstep := processStep_nohandler qm qn now c id0 j0 hc hlast hget hh
    refine ⟨_, hstep, ?_, ?_, ?_, ?_⟩
    · simp [storeGet]
    · rw [hstep]; simp
    · rw [hstep]; simp
    · simp [queueOf, hc]
  · intro qm qn now c id0 j0 h emsg hc hlast hget hh hrun
    have hstep := processStep_handler_err qm qn now c id0 j0 h emsg hc hlast hget hh hrun
    refine ⟨_, hstep, ?_, ?_, ?_⟩
    · simp [storeGet]
    · rw [hstep]; simp
    · simp [queueOf, hc]

/-- Witness for `worker_failed_jobs_not_requeued`: the no-handler case on
`qmNoHandler` and the raising-handler case on `qmBoom`. -/
theorem worker_failed_jobs_not_requeued_witness :
    (∃ qm2, processStep qmNoHandler "q" 7 =
        (qm2, .handled "j" "failed",
         [QEvent.pop "q" (some "j"), QEvent.putJob "j" "processing",
          QEvent.putJob "j" "failed"]) ∧
      storeGet qm2 "j" =
        some { jSample with status := "failed", updated_at := 7,
                            result := some "No handler" } ∧
      (∀ q i, QEvent.invokeHandler q i ∉ (processStep qmNoHandler "q" 7).2.2) ∧
      (∀ q i, QEvent.push q i ∉ (processStep qmNoHandler "q" 7).2.2) ∧
      queueOf qm2 "q" = (queueOf qmNoHandler "q").dropLast) ∧
    (∃ qm2, processStep qmBoom "q" 7 =
        (qm2, .handled "j" "failed",
         [QEvent.pop "q" (some "j"), QEvent.putJob "j" "processing",
          QEvent.invokeHandler "q" "j", QEvent.putJob "j" "failed"]) ∧
      storeGet qm2 "j" =
        some { jSample with status := "failed", updated_at := 7, result := some "boom" } ∧
      (∀ q i, QEvent.push q i ∉ (processStep qmBoom "q" 7).2.2) ∧
      queueOf qm2 "q" = (queueOf qmBoom "q").dropLast) :=
  ⟨worker_failed_jobs_not_requeued.1 qmNoHandler "q" 7 cSample "j" jSample rfl
     (by decide) (by simp [cSample]) rfl,
   worker_failed_jobs_not_requeued.2 qmBoom "q" 7 cSample "j" jSample hBoom "boom" rfl
     (by decide) (by simp [cSample]) rfl rfl⟩

/-!
## C1 — status monotonicity machinery
-/

theorem count_dropLast_of_getLast? {l : List String} {a x : String}
    (h : l.getLast? = some a) (hx : x ≠ a) : l.dropLast.count x = l.count x := by
  conv_rhs => rw [← List.dropLast_append_getLast? a h]
  simp [List.count_append, hx]

theorem mem_of_mem_dropLast {l : List String} {x : String} (hm : x ∈ l.dropLast) :
    x ∈ l :=
  (List.dropLast_sublist l).subset hm

/-- Transfer of a single job's invariant entry across a state whose only
queue change is dropping the popped tail `id0` of queue `qn`, for a job id
different from `id0`. -/
theorem QInvEntry_shrink (qm Q : QueueManager) (qn id0 id : String) (j : Job)
    (hlast : (queueOf qm qn).getLast? = some id0)
    (hqQ : ∀ qn2, queueOf Q qn2 =
      if qn2 = qn then (queueOf qm qn).dropLast else queueOf qm qn2)
    (hid : id ≠ id0)
    (hinv : QInv qm) (hj : storeGet qm id = some j) :
    StatusOk j.status ∧
    (j.status = "queued" →
      ∃ qnw, (queueOf Q qnw).count id = 1 ∧ ∀ qn2, qn2 ≠ qnw → id ∉ queueOf Q qn2) ∧
    (j.status ≠ "queued" → ∀ qn2, id ∉ queueOf Q qn2) := by
  obtain ⟨h1, h2, h3⟩ := hinv id j hj
  refine ⟨h1, ?_, ?_⟩
  · intro hq
    obtain ⟨qnw, hc, hn⟩ := h2 hq
    refine ⟨qnw, ?_, ?_⟩
    · rw [hqQ qnw]
      by_cases hw : qnw = qn
      · subst hw
        rw [if_pos rfl, count_dropLast_of_getLast? hlast hid]
        exact hc
      · rw [if_neg hw]; exact hc
    · intro qn2 hne
      rw [hqQ qn2]
      by_cases hw : qn2 = qn
      · subst hw
        rw [if_pos rfl]
        intro hm
        exact hn _ hne (mem_of_mem_dropLast hm)
      · rw [if_neg hw]; exact hn qn2 hne
  · intro hnq qn2
    rw [hqQ qn2]
    by_cases hw : qn2 = qn
    · subst hw
      rw [if_pos rfl]
      intro hm
      exact h3 hnq _ (mem_of_mem_dropLast hm)
    · rw [if_neg hw]; exact h3 hnq qn2

/-- Preservation across an enqueue of a fresh id. -/
theorem QInv_of_add_state (qm Q : QueueManager) (qn rid : String) (rec : Job)
    (hfresh : storeGet qm rid = none)
    (hnotin : ∀ qn2, rid ∉ queueOf qm qn2)
    (hst : rec.status = "queued")
    (hsgQ : ∀ id, storeGet Q id = if id = rid then some rec else storeGet qm id)
    (hqQ : ∀ qn2, queueOf Q qn2 =
      if qn2 = qn then rid :: queueOf qm qn else queueOf qm qn2)
    (hinv : QInv qm) :
    QInv Q ∧ ∀ id j, storeGet qm id = some j →
      ∃ j2, storeGet Q id = some j2 ∧ statusFwd j.status j2.status = true := by
  constructor
  · intro id j hj
    rw [hsgQ] at hj
    by_cases hid : id = rid
    · subst hid
      rw [if_pos rfl] at hj
      injection hj with hj
      subst hj
      refine ⟨Or.inl hst, ?_, ?_⟩
      · intro _
        refine ⟨qn, ?_, ?_⟩
        · rw [hqQ qn, if_pos rfl]
          simp [List.count_cons, List.count_eq_zero.mpr (hnotin qn)]
        · intro qn2 hne
          rw [hqQ qn2, if_neg hne]
          exact hnotin qn2
      · intro hcon; exact absurd hst hcon
    · rw [if_neg hid] at hj
      obtain ⟨h1, h2, h3⟩ := hinv id j hj
      refine ⟨h1, ?_, ?_⟩
      · intro hq
        obtain ⟨qnw, hc, hn⟩ := h2 hq
        refine ⟨qnw, ?_, ?_⟩
        · rw [hqQ qnw]
          by_cases hw : qnw = qn
          · subst hw
            rw [if_pos rfl]
            simpa [List.count_cons, hid] using hc
          · rw [if_neg hw]; exact hc
        · intro qn2 hne
          rw [hqQ qn2]
          by_cases hw : qn2 = qn
          · subst hw
            rw [if_pos rfl]
            intro hm
            rcases List.mem_cons.mp hm with hm | hm
            · exact hid hm
            · exact hn _ hne hm
          · rw [if_neg hw]; exact hn qn2 hne
      · intro hnq qn2
        rw [hqQ qn2]
        by_cases hw : qn2 = qn
        · subst hw
          rw [if_pos rfl]
          intro hm
          rcases List.mem_cons.mp hm with hm | hm
          · exact hid hm
          · exact h3 hnq _ hm
        · rw [if_neg hw]; exact h3 hnq qn2
  · intro id j hj
    have hid : id ≠ rid := by
      intro hcon; subst hcon; rw [hfresh] at hj; cases hj
    refine ⟨j, ?_, statusFwd_refl _⟩
    rw [hsgQ, if_neg hid]; exact hj

/-- Preservation across a worker pop whose record is absent. -/
theorem QInv_of_pop_ghost (qm Q : QueueManager) (qn id0 : String)
    (hnorec : storeGet qm id0 = none)
    (hlast : (queueOf qm qn).getLast? = some id0)
    (hsgQ : ∀ id, storeGet Q id = storeGet qm id)
    (hqQ : ∀ qn2, queueOf Q qn2 =
      if qn2 = qn then (queueOf qm qn).dropLast else queueOf qm qn2)
    (hinv : QInv qm) :
    QInv Q ∧ ∀ id j, storeGet qm id = some j →
      ∃ j2, storeGet Q id = some j2 ∧ statusFwd j.status j2.status = true := by
  constructor
  · intro id j hj
    rw [hsgQ] at hj
    have hid : id ≠ id0 := by
      intro hcon; subst hcon; rw [hnorec] at hj; cases hj
    exact QInvEntry_shrink qm Q qn id0 id j hlast hqQ hid hinv hj
  · intro id j hj
    exact ⟨j, by rw [hsgQ]; exact hj, statusFwd_refl _⟩

/-- Preservation across a worker iteration that finalizes the popped job. -/
theorem QInv_of_finalize (qm Q : QueueManager) (qn id0 : String) (j0 jf : Job)
    (hget : storeGet qm id0 = some j0)
    (hlast : (queueOf qm qn).getLast? = some id0)
    (hfs : jf.status = "completed" ∨ jf.status = "failed")
    (hsgQ : ∀ id, storeGet Q id = if id = id0 then some jf else storeGet qm id)
    (hqQ : ∀ qn2, queueOf Q qn2 =
      if qn2 = qn then (queueOf qm qn).dropLast else queueOf qm qn2)
    (hinv : QInv qm) :
    QInv Q ∧ ∀ id j, storeGet qm id = some j →
      ∃ j2, storeGet Q id = some j2 ∧ statusFwd j.status j2.status = true := by
  have hsplit := List.dropLast_append_getLast? id0 hlast
  have hmem : id0 ∈ queueOf qm qn := by
    rw [← hsplit]; simp
  have hq0 : j0.status = "queued" := by
    by_contra hne
    exact (hinv id0 j0 hget).2.2 hne qn hmem
  obtain ⟨_, h2, _⟩ := hinv id0 j0 hget
  obtain ⟨qn1, hcount, hnot⟩ := h2 hq0
  have hqn1 : qn1 = qn := by
    by_contra hcon
    exact hnot qn (fun hh => hcon hh.symm) hmem
  subst hqn1
  have hdrop0 : (queueOf qm qn1).dropLast.count id0 = 0 := by
    have hc2 := hcount
    rw [← hsplit] at hc2
    simp [List.count_append] at hc2
    exact hc2
  have hnotdrop : id0 ∉ (queueOf qm qn1).dropLast := List.count_eq_zero.mp hdrop0
  have hjfne : jf.status ≠ "queued" := by
    rcases hfs with hf | hf <;> rw [hf] <;> decide
  have hjfok : StatusOk jf.status := by
    rcases hfs with hf | hf
    · exact Or.inr (Or.inr (Or.inl hf))
    · exact Or.inr (Or.inr (Or.inr hf))
  constructor
  · intro id j hj
    rw [hsgQ] at hj
    by_cases hid : id = id0
    · subst hid
      rw [if_pos rfl] at hj
      injection hj with hj
      subst hj
      refine ⟨hjfok, ?_, ?_⟩
      · intro hcon; exact absurd hcon hjfne
      · intro _ qn2
        rw [hqQ qn2]
        by_cases hw : qn2 = qn1
        · subst hw; rw [if_pos rfl]; exact hnotdrop
        · rw [if_neg hw]; exact hnot qn2 hw
    · rw [if_neg hid] at hj
      exact QInvEntry_shrink qm Q qn1 id0 id j hlast hqQ hid hinv hj
  · intro id j hj
    by_cases hid : id = id0
    · subst hid
      rw [hget] at hj
      injection hj with hj
      subst hj
      refine ⟨jf, ?_, ?_⟩
      · rw [hsgQ, if_pos rfl]
      · rw [hq0]; exact statusFwd_queued _
    · refine ⟨j, ?_, statusFwd_refl _⟩
      rw [hsgQ, if_neg hid]; exact hj

/-- Each safe operation preserves the invariant and moves every persisted
status only forward. -/
theorem runOp_preserves (qm : QueueManager) (op : QOp)
    (hinv : QInv qm) (hok : OpOk qm op) :
    QInv (runOp qm op) ∧ ∀ id j, storeGet qm id = some j →
      ∃ j2, storeGet (runOp qm op) id = some j2 ∧ statusFwd j.status j2.status = true := by
  cases op with
  | register qn h =>
    refine ⟨?_, ?_⟩
    · intro id j hj
      exact hinv id j hj
    · intro id j hj
      exact ⟨j, hj, statusFwd_refl _⟩
  | update id st r n => exact hok.elim
  | add qn d i n =>
    obtain ⟨hfresh, hnotin⟩ := hok
    rcases hcl : qm.redis.client with _ | c
    · have hrun : runOp qm (.add qn d i n) = qm := by
        simp [runOp, add_job, RedisManager.set, clientLpush, hcl]
      rw [hrun]
      exact ⟨hinv, fun id j hj => ⟨j, hj, statusFwd_refl _⟩⟩
    · have hrun := add_job_eq qm qn d i n c hcl
      have hrun2 : runOp qm (.add qn d i n) =
        { qm with
          redis := ⟨some (listSet (kvSet c (jobKey (resolveId qn i n))
              { id := resolveId qn i n, queue := qn, data := d, status := "queued",
                created_at := n, updated_at := n, result := none })
            (queueKey qn) (resolveId qn i n :: c.lists (queueKey qn)))⟩,
          jobs := dictSet (resolveId qn i n)
              { id := resolveId qn i n, queue := qn, data := d, status := "queued",
                created_at := n, updated_at := n, result := none } qm.jobs } := by
        simp [runOp, hrun]
      rw [hrun2]
      refine QInv_of_add_state qm _ qn (resolveId qn i n)
        { id := resolveId qn i n, queue := qn, data := d, status := "queued",
          created_at := n, updated_at := n, result := none }
        hfresh hnotin rfl ?_ ?_ hinv
      · intro id
        by_cases hid : id = resolveId qn i n
        · subst hid; simp [storeGet]
        · have hk : jobKey id ≠ jobKey (resolveId qn i n) := fun hk => hid (jobKey_inj hk)
          simp [storeGet, hcl, if_neg hid, kvSet, hk]
      · intro qn2
        by_cases hw : qn2 = qn
        · subst hw; simp [queueOf, hcl]
        · have hk : queueKey qn2 ≠ queueKey qn := fun hk => hw (queueKey_inj hk)
          simp [queueOf, hcl, if_neg hw, listSet, hk]
  | work qn n =>
    rcases hcl : qm.redis.client with _ | c
    · have hrun : runOp qm (.work qn n) = qm := by
        simp [runOp, processStep, processStepInner, clientRpop, hcl]
      rw [hrun]
      exact ⟨hinv, fun id j hj => ⟨j, hj, statusFwd_refl _⟩⟩
    · rcases hlast : (c.lists (queueKey qn)).getLast? with _ | id0
      · have hnil : c.lists (queueKey qn) = [] := List.getLast?_eq_none_iff.mp hlast
        have hrun : runOp qm (.work qn n) = qm := by
          simp [runOp, processStep_idle qm qn n c hcl hnil]
        rw [hrun]
        exact ⟨hinv, fun id j hj => ⟨j, hj, statusFwd_refl _⟩⟩
      · have hlastq : (queueOf qm qn).getLast? = some id0 := by
          simpa [queueOf, hcl] using hlast
        rcases hkv : c.kv (jobKey id0) with _ | j0
        · have hstep := processStep_missing qm qn n c id0 hcl hlast hkv
          have hrun : runOp qm (.work qn n) =
            { qm with redis :=
                ⟨some (listSet c (queueKey qn) (c.lists (queueKey qn)).dropLast)⟩ } := by
            simp [runOp, hstep]
          rw [hrun]
          refine QInv_of_pop_ghost qm _ qn id0 ?_ hlastq ?_ ?_ hinv
          · simp [storeGet, hcl, hkv]
          · intro id; simp [storeGet, hcl]
          · intro qn2
            by_cases hw : qn2 = qn
            · subst hw; simp [queueOf, hcl]
            · have hk : queueKey qn2 ≠ queueKey qn := fun hk => hw (queueKey_inj hk)
              simp [queueOf, hcl, if_neg hw, listSet, hk]
        · have hget : storeGet qm id0 = some j0 := by simp [storeGet, hcl, hkv]
          rcases hh : lookupA qn qm.handlers with _ | h
          · have hstep := processStep_nohandler qm qn n c id0 j0 hcl hlast hkv hh
            have hrun : runOp qm (.work qn n) =
              { qm with
                redis := ⟨some (kvSet
                  (kvSet (listSet c (queueKey qn) (c.lists (queueKey qn)).dropLast)
                    (jobKey id0) { j0 with status := "processing", updated_at := n })
                  (jobKey id0)
                  { j0 with status := "failed", updated_at := n,
                            result := some "No handler" })⟩,
                jobs := dictSet id0
                  { j0 with status := "failed", updated_at := n,
                            result := some "No handler" }
                  (dictSet id0 { j0 with status := "processing", updated_at := n }
                    qm.jobs) } := by
              simp [runOp, hstep]
            rw [hrun]
            refine QInv_of_finalize qm _ qn id0 j0
              { j0 with status := "failed", updated_at := n, result := some "No handler" }
              hget hlastq (Or.inr rfl) ?_ ?_ hinv
            · intro id
              by_cases hid : id = id0
              · subst hid; simp [storeGet]
              · have hk : jobKey id ≠ jobKey id0 := fun hk => hid (jobKey_inj hk)
                simp [storeGet, hcl, if_neg hid, kvSet, hk]
            · intro qn2
              by_cases hw : qn2 = qn
              · subst hw; simp [queueOf, hcl]
              · have hk : queueKey qn2 ≠ queueKey qn := fun hk => hw (queueKey_inj hk)
                simp [queueOf, hcl, if_neg hw, listSet, hk]
          · cases hres : h j0.data with
            | ok res =>
              have hstep := processStep_handler_ok qm qn n c id0 j0 h res hcl hlast hkv hh hres
              have hrun : runOp qm (.work qn n) =
                { qm with
                  redis := ⟨some (kvSet
                    (kvSet (listSet c (queueKey qn) (c.lists (queueKey qn)).dropLast)
                      (jobKey id0) { j0 with status := "processing", updated_at := n })
                    (jobKey id0)
                    { j0 with status := "completed", updated_at := n,
                              result := some res })⟩,
                  jobs := dictSet id0
                    { j0 with status := "completed", updated_at := n, result := some res }
                    (dictSet id0 { j0 with status := "processing", updated_at := n }
                      qm.jobs) } := by
                simp [runOp, hstep]
              rw [hrun]
              refine QInv_of_finalize qm _ qn id0 j0
                { j0 with status := "completed", updated_at := n, result := some res }
                hget hlastq (Or.inl rfl) ?_ ?_ hinv
              · intro id
                by_cases hid : id = id0
                · subst hid; simp [storeGet]
                · have hk : jobKey id ≠ jobKey id0 := fun hk => hid (jobKey_inj hk)
                  simp [storeGet, hcl, if_neg hid, kvSet, hk]
              · intro qn2
                by_cases hw : qn2 = qn
                · subst hw; simp [queueOf, hcl]
                · have hk : queueKey qn2 ≠ queueKey qn := fun hk => hw (queueKey_inj hk)
                  simp [queueOf, hcl, if_neg hw, listSet, hk]
            | error emsg =>
              have hstep := processStep_handler_err qm qn n c id0 j0 h emsg hcl hlast hkv hh hres
              have hrun : runOp qm (.work qn n) =
                { qm with
                  redis := ⟨some (kvSet
                    (kvSet (listSet c (queueKey qn) (c.lists (queueKey qn)).dropLast)
                      (jobKey id0) { j0 with status := "processing", updated_at := n })
                    (jobKey id0)
                    { j0 with status := "failed", updated_at := n,
                              result := some emsg })⟩,
                  jobs := dictSet id0
                    { j0 with status := "failed", updated_at := n, result := some emsg }
                    (dictSet id0 { j0 with status := "processing", updated_at := n }
                      qm.jobs) } := by
                simp [runOp, hstep]
              rw [hrun]
              refine QInv_of_finalize qm _ qn id0 j0
                { j0 with status := "failed", updated_at := n, result := some emsg }
                hget hlastq (Or.inr rfl) ?_ ?_ hinv
              · intro id
                by_cases hid : id = id0
                · subst hid; simp [storeGet]
                · have hk : jobKey id ≠ jobKey id0 := fun hk => hid (jobKey_inj hk)
                  simp [storeGet, hcl, if_neg hid, kvSet, hk]
              · intro qn2
                by_cases hw : qn2 = qn
                · subst hw; simp [queueOf, hcl]
                · have hk : queueKey qn2 ≠ queueKey qn := fun hk => hw (queueKey_inj hk)
                  simp [queueOf, hcl, if_neg hw, listSet, hk]

/-- Invariant and forward monotonicity along any safe operation sequence. -/
theorem runOps_preserves (ops : List QOp) : ∀ (qm : QueueManager),
    QInv qm → Safe qm ops →
    QInv (runOps qm ops) ∧ ∀ id j, storeGet qm id = some j →
      ∃ j2, storeGet (runOps qm ops) id = some j2 ∧ statusFwd j.status j2.status = true := by
  induction ops with
  | nil =>
    intro qm hinv _
    exact ⟨hinv, fun id j hj => ⟨j, hj, statusFwd_refl _⟩⟩
  | cons op rest ih =>
    intro qm hinv hsafe
    obtain ⟨hok, hsafe2⟩ := hsafe
    obtain ⟨hinv1, hmono1⟩ := runOp_preserves qm op hinv hok
    obtain ⟨hinv2, hmono2⟩ := ih (runOp qm op) hinv1 hsafe2
    refine ⟨hinv2, ?_⟩
    intro id j hj
    obtain ⟨j1, hj1, hf1⟩ := hmono1 id j hj
    obtain ⟨j2, hj2, hf2⟩ := hmono2 id j1 hj1
    exact ⟨j2, hj2, statusFwd_trans hf1 hf2⟩

/-- C1 counterexample: the subsystem's own operations can move a persisted
status backward.  Concretely, enqueue `"j"`, write `"completed"` via
`update_job_status`, then call `update_job_status(j, "queued")` — the
method validates nothing, so the job re-enters `"queued"` after having been
`"completed"`. -/
theorem job_status_moves_backward_counterexample :
    ¬ (∀ (qm : QueueManager) (ops : List QOp) (id : String) (j j2 : Job),
        storeGet qm id = some j → storeGet (runOps qm ops) id = some j2 →
        statusFwd j.status j2.status = true) := by
  intro hcl
  have h := hcl (runOps qmEmpty [QOp.add "q" "d" (some "j") 0,
                                 QOp.update "j" "completed" none 1])
      [QOp.update "j" "queued" none 2] "j"
      { id := "j", queue := "q", data := "d", status := "completed",
        created_at := 0, updated_at := 1, result := none }
      { id := "j", queue := "q", data := "d", status := "queued",
        created_at := 0, updated_at := 2, result := none }
      (by decide) (by decide)
  simp [statusFwd] at h

/-- C1 (amended): restricted to the operations the worker design intends —
enqueues with fresh ids, handler registration, and worker iterations, with
no direct `update_job_status` calls — every persisted status moves only
forward along `queued → processing → {completed, failed}` (and never
re-enters `queued`), and each worker iteration that claims a recorded job
writes exactly `"processing"` and then a terminal status for it.  The
unrestricted claim is false: `update_job_status` accepts any status and a
duplicate-id enqueue rewrites a finished record back to `"queued"`. -/
theorem job_status_forward_restricted :
    (∀ qm ops, QInv qm → Safe qm ops →
      QInv (runOps qm ops) ∧ ∀ id j, storeGet qm id = some j →
        ∃ j2, storeGet (runOps qm ops) id = some j2 ∧
          statusFwd j.status j2.status = true) ∧
    (∀ qm qn now c id0 j0, qm.redis.client = some c →
      (c.lists (queueKey qn)).getLast? = some id0 →
      c.kv (jobKey id0) = some j0 →
      ∃ fin, (fin = "completed" ∨ fin = "failed") ∧
        ((processStep qm qn now).2.2).filter isPut =
          [QEvent.putJob id0 "processing", QEvent.putJob id0 fin]) := by
  constructor
  · intro qm ops hinv hsafe
    exact runOps_preserves ops qm hinv hsafe
  · intro qm qn now c id0 j0 hc hlast hget
    rcases hh : lookupA qn qm.handlers with _ | h
    · refine ⟨"failed", Or.inr rfl, ?_⟩
      rw [processStep_nohandler qm qn now c id0 j0 hc hlast hget hh]
      simp [isPut]
    · cases hres : h j0.data with
      | ok res =>
        refine ⟨"completed", Or.inl rfl, ?_⟩
        rw [processStep_handler_ok qm qn now c id0 j0 h res hc hlast hget hh hres]
        simp [isPut]
      | error e =>
        refine ⟨"failed", Or.inr rfl, ?_⟩
        rw [processStep_handler_err qm qn now c id0 j0 h e hc hlast hget hh hres]
        simp [isPut]

/-- Witness for `job_status_forward_restricted`: a fresh enqueue followed by
a worker iteration on the empty connected store, and the no-handler
iteration on the concrete populated store. -/
theorem job_status_forward_restricted_witness :
    (QInv (runOps qmEmpty [QOp.add "q" "d" (some "j") 0, QOp.work "q" 1]) ∧
      ∀ id j, storeGet qmEmpty id = some j →
        ∃ j2, storeGet (runOps qmEmpty [QOp.add "q" "d" (some "j") 0, QOp.work "q" 1]) id
            = some j2 ∧ statusFwd j.status j2.status = true) ∧
    (∃ fin, (fin = "completed" ∨ fin = "failed") ∧
      ((processStep qmNoHandler "q" 7).2.2).filter isPut =
        [QEvent.putJob "j" "processing", QEvent.putJob "j" fin]) :=
  ⟨job_status_forward_restricted.1 qmEmpty [QOp.add "q" "d" (some "j") 0, QOp.work "q" 1]
    (by intro id j hj; simp [storeGet, qmEmpty] at hj)
    ⟨⟨by simp [storeGet, qmEmpty, resolveId],
      fun qn2 => by simp [queueOf, qmEmpty]⟩, trivial, trivial⟩,
   job_status_forward_restricted.2 qmNoHandler "q" 7 cSample "j" jSample rfl
    (by decide) (by simp [cSample])⟩

/-!
## Association-list and registry lemmas
-/

theorem lookupA_eq_none_iff {α : Type} (k : String) (l : List (String × α)) :
    lookupA k l = none ↔ k ∉ l.map Prod.fst := by
  induction l with
  | nil => simp [lookupA]
  | cons p rest ih =>
    obtain ⟨k2, v⟩ := p
    by_cases h : k2 = k
    · subst h; simp [lookupA]
    · have h2 : k ≠ k2 := fun hh => h hh.symm
      simp [lookupA, h, ih, h2]

theorem lookupA_some_mem {α : Type} {k : String} {v : α} {l : List (String × α)}
    (h : lookupA k l = some v) : (k, v) ∈ l := by
  induction l with
  | nil => simp [lookupA] at h
  | cons p rest ih =>
    obtain ⟨k2, v2⟩ := p
    by_cases hk : k2 = k
    · subst hk
      simp [lookupA] at h
      subst h
      exact List.mem_cons_self _ _
    · simp [lookupA, hk] at h
      exact List.mem_cons_of_mem _ (ih h)

theorem lookupA_filter_ne {α : Type} (cid : String) (l : List (String × α)) :
    lookupA cid (l.filter (fun p => p.1 ≠ cid)) = none := by
  rw [lookupA_eq_none_iff]
  intro hm
  obtain ⟨p, hp, hfst⟩ := List.mem_map.mp hm
  have := (List.mem_filter.mp hp).2
  simp [hfst] at this

theorem dictSet_of_not_mem {α : Type} (k : String) (v : α) (l : List (String × α))
    (h : k ∉ l.map Prod.fst) : dictSet k v l = l ++ [(k, v)] := by
  induction l with
  | nil => simp [dictSet]
  | cons p rest ih =>
    obtain ⟨k2, v2⟩ := p
    simp only [List.map_cons, List.mem_cons, not_or] at h
    have hk : k2 ≠ k := fun hh => h.1 hh.symm
    simp [dictSet, hk, ih h.2]

theorem lookupA_some_split {α : Type} {k : String} {v0 : α} {l : List (String × α)}
    (h : lookupA k l = some v0) :
    ∃ l1 l2, l = l1 ++ (k, v0) :: l2 ∧ k ∉ l1.map Prod.fst ∧
      ∀ v, dictSet k v l = l1 ++ (k, v) :: l2 := by
  induction l with
  | nil => simp [lookupA] at h
  | cons p rest ih =>
    obtain ⟨k2, v2⟩ := p
    by_cases hk : k2 = k
    · subst hk
      simp [lookupA] at h
      subst h
      refine ⟨[], rest, by simp, by simp, ?_⟩
      intro v; simp [dictSet]
    · simp only [lookupA, if_neg hk] at h
      obtain ⟨l1, l2, he, hn, hd⟩ := ih h
      refine ⟨(k2, v2) :: l1, l2, by rw [he]; rfl, ?_, ?_⟩
      · have h2 : k ≠ k2 := fun hh => hk hh.symm
        simp [List.mem_cons, hn, h2]
      · intro v
        simp [dictSet, hk, hd v]

theorem removeFromUsers_keys_sublist (cid : String) (l : List (String × List String)) :
    ((removeFromUsers cid l).map Prod.fst).Sublist (l.map Prod.fst) := by
  induction l with
  | nil => simp [removeFromUsers]
  | cons p rest ih =>
    obtain ⟨uid, conns⟩ := p
    by_cases h : cid ∈ conns
    · simp only [removeFromUsers, if_pos h]
      by_cases he : (conns.erase cid).isEmpty
      · simp only [if_pos he, List.map_cons]
        exact List.sublist_cons_self _ _
      · simp only [if_neg he, List.map_cons]
        exact (List.Sublist.refl _).cons₂ _
    · simp only [removeFromUsers, if_neg h, List.map_cons]
      exact ih.cons₂ _

/-- The entries after `removeFromUsers`: still non-empty and duplicate-free,
never contain the removed id, and draw their members from the old entries. -/
theorem removeFromUsers_entries {cid : String} {l : List (String × List String)}
    (hne : ∀ p ∈ l, p.2 ≠ []) (hnd : ∀ p ∈ l, p.2.Nodup)
    (hamo : (l.filter (fun q => cid ∈ q.2)).length ≤ 1) :
    ∀ p2 ∈ removeFromUsers cid l,
      p2.2 ≠ [] ∧ p2.2.Nodup ∧ cid ∉ p2.2 ∧ ∀ x ∈ p2.2, ∃ p ∈ l, x ∈ p.2 := by
  induction l with
  | nil => simp [removeFromUsers]
  | cons p rest ih =>
    obtain ⟨uid, conns⟩ := p
    by_cases h : cid ∈ conns
    · have hrest : ∀ q ∈ rest, cid ∉ q.2 := by
        intro q hq hcq
        have h1 : q ∈ rest.filter (fun q => cid ∈ q.2) :=
          List.mem_filter.mpr ⟨hq, by simpa using hcq⟩
        have h2 : 1 ≤ (rest.filter (fun q => cid ∈ q.2)).length :=
          List.length_pos.mpr (List.ne_nil_of_mem h1)
        have h3 : (((uid, conns) :: rest).filter (fun q => cid ∈ q.2)).length =
            (rest.filter (fun q => cid ∈ q.2)).length + 1 := by
          simp [List.filter_cons, h]
        omega
      simp only [removeFromUsers, if_pos h]
      by_cases he2 : (conns.erase cid).isEmpty
      · simp only [if_pos he2]
        intro p2 hp2
        refine ⟨hne p2 (List.mem_cons_of_mem _ hp2), hnd p2 (List.mem_cons_of_mem _ hp2),
                hrest p2 hp2, ?_⟩
        intro x hx
        exact ⟨p2, List.mem_cons_of_mem _ hp2, hx⟩
      · simp only [if_neg he2]
        intro p2 hp2
        rcases List.mem_cons.mp hp2 with hp2 | hp2
        · subst hp2
          refine ⟨by simpa [List.isEmpty_iff] using he2,
                  (hnd _ (List.mem_cons_self _ _)).erase _,
                  (hnd _ (List.mem_cons_self _ _)).not_mem_erase, ?_⟩
          intro x hx
          exact ⟨(uid, conns), List.mem_cons_self _ _, List.mem_of_mem_erase hx⟩
        · refine ⟨hne p2 (List.mem_cons_of_mem _ hp2), hnd p2 (List.mem_cons_of_mem _ hp2),
                  hrest p2 hp2, ?_⟩
          intro x hx
          exact ⟨p2, List.mem_cons_of_mem _ hp2, hx⟩
    · have hamo2 : (rest.filter (fun q => cid ∈ q.2)).length ≤ 1 := by
        simpa [List.filter_cons, h] using hamo
      intro p2 hp2
      simp only [removeFromUsers, if_neg h] at hp2
      rcases List.mem_cons.mp hp2 with hp2 | hp2
      · subst hp2
        refine ⟨hne _ (List.mem_cons_self _ _), hnd _ (List.mem_cons_self _ _), h, ?_⟩
        intro x hx
        exact ⟨_, List.mem_cons_self _ _, hx⟩
      · obtain ⟨a, b, c, d⟩ := ih (fun q hq => hne q (List.mem_cons_of_mem _ hq))
          (fun q hq => hnd q (List.mem_cons_of_mem _ hq)) hamo2 p2 hp2
        refine ⟨a, b, c, ?_⟩
        intro x hx
        obtain ⟨q, hq, hxq⟩ := d x hx
        exact ⟨q, List.mem_cons_of_mem _ hq, hxq⟩

theorem removeFromUsers_filter_le (cid x : String) (l : List (String × List String)) :
    ((removeFromUsers cid l).filter (fun q => x ∈ q.2)).length ≤
      (l.filter (fun q => x ∈ q.2)).length := by
  induction l with
  | nil => simp [removeFromUsers]
  | cons p rest ih =>
    obtain ⟨uid, conns⟩ := p
    by_cases h : cid ∈ conns
    · simp only [removeFromUsers, if_pos h]
      by_cases he : (conns.erase cid).isEmpty
      · simp only [if_pos he]
        by_cases hx : x ∈ conns <;> simp [List.filter_cons, hx]
      · simp only [if_neg he]
        by_cases hx : x ∈ conns.erase cid
        · have hx2 : x ∈ conns := List.mem_of_mem_erase hx
          simp [List.filter_cons, hx, hx2]
        · by_cases hx2 : x ∈ conns <;> simp [List.filter_cons, hx, hx2]
    · simp only [removeFromUsers, if_neg h]
      by_cases hx : x ∈ conns <;> simp [List.filter_cons, hx] <;> omega

theorem findOwner_removeFromUsers_ne {x cid : String} (hx : x ≠ cid)
    (l : List (String × List String)) :
    findOwner x (removeFromUsers cid l) = findOwner x l := by
  induction l with
  | nil => simp [removeFromUsers]
  | cons p rest ih =>
    obtain ⟨uid, conns⟩ := p
    by_cases h : cid ∈ conns
    · simp only [removeFromUsers, if_pos h]
      by_cases he : (conns.erase cid).isEmpty
      · have he2 : conns.erase cid = [] := List.isEmpty_iff.mp he
        have hxc : x ∉ conns := by
          intro hxm
          have hm2 : x ∈ conns.erase cid := (List.mem_erase_of_ne hx).mpr hxm
          rw [he2] at hm2
          cases hm2
        simp only [if_pos he]
        simp [findOwner, hxc]
      · simp only [if_neg he]
        by_cases hx2 : x ∈ conns
        · simp [findOwner, hx2, (List.mem_erase_of_ne hx).mpr hx2]
        · have hx3 : x ∉ conns.erase cid := fun hh => hx2 (List.mem_of_mem_erase hh)
          simp [findOwner, hx2, hx3]
    · simp only [removeFromUsers, if_neg h]
      by_cases hx2 : x ∈ conns <;> simp [findOwner, hx2, ih]

theorem findOwner_of_unique {cid u : String} {us : List String}
    {l : List (String × List String)}
    (hamo : (l.filter (fun q => cid ∈ q.2)).length ≤ 1)
    (hm : (u, us) ∈ l) (hcid : cid ∈ us) :
    findOwner cid l = some u := by
  induction l with
  | nil => cases hm
  | cons p rest ih =>
    obtain ⟨uid, conns⟩ := p
    by_cases h : cid ∈ conns
    · have hrest : ∀ q ∈ rest, cid ∉ q.2 := by
        intro q hq hcq
        have h1 : q ∈ rest.filter (fun q => cid ∈ q.2) :=
          List.mem_filter.mpr ⟨hq, by simpa using hcq⟩
        have h2 : 1 ≤ (rest.filter (fun q => cid ∈ q.2)).length :=
          List.length_pos.mpr (List.ne_nil_of_mem h1)
        have h3 : (((uid, conns) :: rest).filter (fun q => cid ∈ q.2)).length =
            (rest.filter (fun q => cid ∈ q.2)).length + 1 := by
          simp [List.filter_cons, h]
        omega
      rcases List.mem_cons.mp hm with hm | hm
      · injection hm with h1 h2
        subst h1
        simp [findOwner, h]
      · exact absurd hcid (hrest _ hm)
    · rcases List.mem_cons.mp hm with hm | hm
      · injection hm with h1 h2
        subst h2
        exact absurd hcid h
      · have hamo2 : (rest.filter (fun q => cid ∈ q.2)).length ≤ 1 := by
          simpa [List.filter_cons, h] using hamo
        simp [findOwner, h, ih hamo2 hm]

theorem amo_all {l : List (String × List String)}
    (h : ∀ p ∈ l, ∀ c ∈ p.2, (l.filter (fun q => c ∈ q.2)).length ≤ 1) (c : String) :
    (l.filter (fun q => c ∈ q.2)).length ≤ 1 := by
  rcases hf : l.filter (fun q => c ∈ q.2) with _ | ⟨p, rest⟩
  · simp [hf]
  · have hp : p ∈ l.filter (fun q => c ∈ q.2) := by
      rw [hf]; exact List.mem_cons_self _ _
    have hp2 := List.mem_filter.mp hp
    exact h p hp2.1 c (by simpa using hp2.2)

theorem mem_keys_filter {α : Type} {x cid : String} {l : List (String × α)}
    (hx : x ∈ l.map Prod.fst) (hne : x ≠ cid) :
    x ∈ (l.filter (fun p => p.1 ≠ cid)).map Prod.fst := by
  obtain ⟨p, hp, hfst⟩ := List.mem_map.mp hx
  exact List.mem_map.mpr ⟨p, List.mem_filter.mpr ⟨hp, by simp [hfst, hne]⟩, hfst⟩

/-!
## Registry invariant preservation
-/

theorem wsDisconnect_absent (w : WSServer) (cid : String)
    (h : lookupA cid w.active_connections = none) : wsDisconnect w cid = w := by
  simp [wsDisconnect, h]

theorem wsDisconnect_not_active (w : WSServer) (cid : String) :
    lookupA cid (wsDisconnect w cid).active_connections = none := by
  rcases hl : lookupA cid w.active_connections with _ | h
  · simp [wsDisconnect, hl]
  · simp only [wsDisconnect, hl]
    exact lookupA_filter_ne _ _

theorem WInv_disconnect (w : WSServer) (cid : String) (hw : WInv w) :
    WInv (wsDisconnect w cid) := by
  obtain ⟨hA, hU, hE, hO⟩ := hw
  rcases hl : lookupA cid w.active_connections with _ | hdl
  · rw [wsDisconnect_absent w cid hl]
    exact ⟨hA, hU, hE, hO⟩
  · have hamoC : (w.user_connections.filter (fun q => cid ∈ q.2)).length ≤ 1 :=
      amo_all hO cid
    have hEnt := removeFromUsers_entries (fun p hp => (hE p hp).1)
      (fun p hp => (hE p hp).2.1) hamoC
    refine ⟨?_, ?_, ?_, ?_⟩
    · simp only [wsDisconnect, hl]
      exact hA.sublist ((List.filter_sublist _).map _)
    · simp only [wsDisconnect, hl]
      exact hU.sublist (removeFromUsers_keys_sublist cid _)
    · simp only [wsDisconnect, hl]
      intro p hp
      obtain ⟨h1, h2, h3, h4⟩ := hEnt p hp
      refine ⟨h1, h2, ?_⟩
      intro x hx
      obtain ⟨q, hq, hxq⟩ := h4 x hx
      have hxk : x ∈ w.active_connections.map Prod.fst := (hE q hq).2.2 x hxq
      have hxne : x ≠ cid := fun hh => h3 (hh ▸ hx)
      exact mem_keys_filter hxk hxne
    · simp only [wsDisconnect, hl]
      intro p hp x hx
      exact le_trans (removeFromUsers_filter_le cid x _) (amo_all hO x)

theorem WInv_send (sendOk : Nat → Bool) (w : WSServer) (cid msg : String)
    (hw : WInv w) : WInv (send_to_connection sendOk w cid msg).2 := by
  rcases hl : lookupA cid w.active_connections with _ | h
  · simpa [send_to_connection, hl] using hw
  · by_cases hs : sendOk h
    · simpa [send_to_connection, hl, hs] using hw
    · simpa [send_to_connection, hl, hs] using WInv_disconnect w cid hw

theorem WInv_foldl_disconnect (l : List String) : ∀ (w : WSServer), WInv w →
    WInv (l.foldl wsDisconnect w) := by
  induction l with
  | nil => intro w hw; exact hw
  | cons a rest ih =>
    intro w hw
    exact ih (wsDisconnect w a) (WInv_disconnect w a hw)

theorem WInv_cleanup (w : WSServer) (hw : WInv w) : WInv (wsCleanupConnections w) :=
  WInv_foldl_disconnect _ w hw

theorem WInv_connect (w : WSServer) (cid : String) (handle : Nat) (user : Option String)
    (hw : WInv w) (hf : cid ∉ w.active_connections.map Prod.fst) :
    WInv (wsConnect w cid handle user) := by
  obtain ⟨hA, hU, hE, hO⟩ := hw
  have hact : dictSet cid handle w.active_connections
      = w.active_connections ++ [(cid, handle)] := dictSet_of_not_mem cid handle _ hf
  have hkeys : (dictSet cid handle w.active_connections).map Prod.fst
      = w.active_connections.map Prod.fst ++ [cid] := by rw [hact]; simp
  have hA2 : ((dictSet cid handle w.active_connections).map Prod.fst).Nodup := by
    rw [hkeys]; simp [List.nodup_append, hA, hf]
  have husernotin : ∀ p ∈ w.user_connections, cid ∉ p.2 := by
    intro p hp hc
    exact hf ((hE p hp).2.2 cid hc)
  have hkeysup : ∀ x, x ∈ w.active_connections.map Prod.fst →
      x ∈ (dictSet cid handle w.active_connections).map Prod.fst := by
    intro x hx
    rw [hkeys]
    exact List.mem_append_left _ hx
  have hcidk : cid ∈ (dictSet cid handle w.active_connections).map Prod.fst := by
    rw [hkeys]
    exact List.mem_append_right _ (List.mem_singleton.mpr rfl)
  cases user with
  | none =>
    refine ⟨hA2, hU, ?_, ?_⟩
    · intro p hp
      exact ⟨(hE p hp).1, (hE p hp).2.1, fun x hx => hkeysup x ((hE p hp).2.2 x hx)⟩
    · intro p hp x hx
      exact hO p hp x hx
  | some uid =>
    cases hlu : lookupA uid w.user_connections with
    | none =>
      have hun : uid ∉ w.user_connections.map Prod.fst := (lookupA_eq_none_iff _ _).mp hlu
      have hdict : dictSet uid [cid] w.user_connections
          = w.user_connections ++ [(uid, [cid])] := dictSet_of_not_mem _ _ _ hun
      simp only [wsConnect, hlu]
      refine ⟨hA2, ?_, ?_, ?_⟩
      · rw [hdict]; simp [List.nodup_append, hU, hun]
      · rw [hdict]
        intro p hp
        rcases List.mem_append.mp hp with hp | hp
        · exact ⟨(hE p hp).1, (hE p hp).2.1, fun x hx => hkeysup x ((hE p hp).2.2 x hx)⟩
        · have hp2 : p = (uid, [cid]) := List.mem_singleton.mp hp
          subst hp2
          exact ⟨by simp, by simp, fun x hx => by
            rw [List.mem_singleton.mp hx]; exact hcidk⟩
      · rw [hdict]
        intro p hp x hx
        have hnil : w.user_connections.filter (fun q => cid ∈ q.2) = [] :=
          List.filter_eq_nil_iff.mpr (fun q hq => by simpa using husernotin q hq)
        by_cases hxc : x = cid
        · rw [hxc]
          simp [List.filter_append, hnil, List.filter_cons]
        · have heq2 : (w.user_connections ++ [(uid, [cid])]).filter (fun q => x ∈ q.2)
              = w.user_connections.filter (fun q => x ∈ q.2) := by
            simp [List.filter_append, List.filter_cons, hxc]
          rw [heq2]
          exact amo_all hO x
    | some conns =>
      have hmemu : (uid, conns) ∈ w.user_connections := lookupA_some_mem hlu
      have hcidc : cid ∉ conns := husernotin _ hmemu
      obtain ⟨l1, l2, heq, hl1, hd⟩ := lookupA_some_split hlu
      have hconns2 : (if cid ∈ conns then conns else conns ++ [cid]) = conns ++ [cid] :=
        if_neg hcidc
      simp only [wsConnect, hlu, hconns2]
      rw [hd (conns ++ [cid])]
      have hl1users : ∀ q ∈ l1, q ∈ w.user_connections := by
        intro q hq; rw [heq]; exact List.mem_append_left _ hq
      have hl2users : ∀ q ∈ l2, q ∈ w.user_connections := by
        intro q hq; rw [heq]
        exact List.mem_append_right _ (List.mem_cons_of_mem _ hq)
      refine ⟨hA2, ?_, ?_, ?_⟩
      · have hkeq : (l1 ++ (uid, conns ++ [cid]) :: l2).map Prod.fst
            = w.user_connections.map Prod.fst := by
          rw [heq]; simp
        rw [hkeq]; exact hU
      · intro p hp
        rcases List.mem_append.mp hp with hp | hp
        · have hp2 := hl1users p hp
          exact ⟨(hE p hp2).1, (hE p hp2).2.1, fun x hx => hkeysup x ((hE p hp2).2.2 x hx)⟩
        · rcases List.mem_cons.mp hp with hp | hp
          · subst hp
            refine ⟨by simp, ?_, ?_⟩
            · simp [List.nodup_append, (hE _ hmemu).2.1, hcidc]
            · intro x hx
              rcases List.mem_append.mp hx with hx | hx
              · exact hkeysup x ((hE _ hmemu).2.2 x hx)
              · rw [List.mem_singleton.mp hx]; exact hcidk
          · have hp2 := hl2users p hp
            exact ⟨(hE p hp2).1, (hE p hp2).2.1, fun x hx => hkeysup x ((hE p hp2).2.2 x hx)⟩
      · intro p hp x hx
        have hnl1 : l1.filter (fun q => cid ∈ q.2) = [] :=
          List.filter_eq_nil_iff.mpr
            (fun q hq => by simpa using husernotin q (hl1users q hq))
        have hnl2 : l2.filter (fun q => cid ∈ q.2) = [] :=
          List.filter_eq_nil_iff.mpr
            (fun q hq => by simpa using husernotin q (hl2users q hq))
        by_cases hxc : x = cid
        · rw [hxc]
          simp [List.filter_append, List.filter_cons, hnl1, hnl2]
        · have hxif : (x ∈ conns ++ [cid]) ↔ (x ∈ conns) := by
            simp [hxc]
          have heqf : ((l1 ++ (uid, conns ++ [cid]) :: l2).filter
                (fun q => x ∈ q.2)).length
              = (w.user_connections.filter (fun q => x ∈ q.2)).length := by
            rw [heq]
            by_cases hxm : x ∈ conns
            · simp [List.filter_append, List.filter_cons, hxif.mpr, hxm, hxc]
            · have hxm2 : ¬ (x ∈ conns ++ [cid]) := fun hh => hxm (hxif.mp hh)
              simp [List.filter_append, List.filter_cons, hxm, hxm2]
          rw [heqf]
          exact amo_all hO x

/-!
## Broadcast exclusion
-/

theorem findOwner_after_send (sendOk : Nat → Bool) (w : WSServer) (cid0 msg x : String)
    (hx : x ≠ cid0) :
    findOwner x ((send_to_connection sendOk w cid0 msg).2).user_connections =
      findOwner x w.user_connections := by
  rcases hl : lookupA cid0 w.active_connections with _ | hd
  · simp [send_to_connection, hl]
  · by_cases hs : sendOk hd
    · simp [send_to_connection, hl, hs]
    · simp only [send_to_connection, hl, hs, Bool.false_eq_true, if_false, wsDisconnect]
      exact findOwner_removeFromUsers_ne hx _

/-- The broadcast loop never attempts a send to a connection owned (as first
owner) by the excluded user, and delivers nothing when every snapshot entry
is owned by the excluded user. -/
theorem broadcastGo_excluded (sendOk : Nat → Bool) (msg u : String) (us : List String) :
    ∀ (snapshot : List (String × Nat)) (w : WSServer),
      (∀ cid ∈ us, findOwner cid w.user_connections = some u) →
      (∀ cid ∈ us, cid ∉ (broadcastGo sendOk (some u) msg snapshot w).2.2) ∧
      ((∀ p ∈ snapshot, p.1 ∈ us) →
        (broadcastGo sendOk (some u) msg snapshot w).1 = 0 ∧
        (broadcastGo sendOk (some u) msg snapshot w).2.2 = []) := by
  intro snapshot
  induction snapshot with
  | nil =>
    intro w _
    exact ⟨by simp [broadcastGo], fun _ => by simp [broadcastGo]⟩
  | cons p rest ih =>
    obtain ⟨cid0, h0⟩ := p
    intro w hP
    rcases hf : findOwner cid0 w.user_connections with _ | uid
    · -- no owner found: the entry is not skipped, and cid0 is not one of us
      have hcid0 : cid0 ∉ us := by
        intro hm
        have := hP cid0 hm
        rw [hf] at this
        cases this
      have hstep : broadcastGo sendOk (some u) msg ((cid0, h0) :: rest) w =
          ((if (send_to_connection sendOk w cid0 msg).1 then 1 else 0) +
             (broadcastGo sendOk (some u) msg rest
               (send_to_connection sendOk w cid0 msg).2).1,
           (broadcastGo sendOk (some u) msg rest
               (send_to_connection sendOk w cid0 msg).2).2.1,
           cid0 :: (broadcastGo sendOk (some u) msg rest
               (send_to_connection sendOk w cid0 msg).2).2.2) := by
        simp [broadcastGo, hf]
      have hP2 : ∀ cid ∈ us,
          findOwner cid ((send_to_connection sendOk w cid0 msg).2).user_connections
            = some u := by
        intro cid hm
        have hne : cid ≠ cid0 := fun hh => hcid0 (hh ▸ hm)
        rw [findOwner_after_send sendOk w cid0 msg cid hne]
        exact hP cid hm
      obtain ⟨ih1, _⟩ := ih (send_to_connection sendOk w cid0 msg).2 hP2
      rw [hstep]
      constructor
      · intro cid hm hmem
        rcases List.mem_cons.mp hmem with hmem | hmem
        · exact hcid0 (hmem ▸ hm)
        · exact ih1 cid hm hmem
      · intro hall
        exact absurd (hall (cid0, h0) (List.mem_cons_self _ _)) hcid0
    · by_cases hu : uid = u
      · -- skipped
        have hstep : broadcastGo sendOk (some u) msg ((cid0, h0) :: rest) w =
            broadcastGo sendOk (some u) msg rest w := by
          simp [broadcastGo, hf, hu]
        rw [hstep]
        obtain ⟨ih1, ih2⟩ := ih w hP
        exact ⟨ih1, fun hall => ih2 (fun q hq => hall q (List.mem_cons_of_mem _ hq))⟩
      · -- not skipped: cid0 cannot be one of us
        have hcid0 : cid0 ∉ us := by
          intro hm
          have := hP cid0 hm
          rw [hf] at this
          injection this with hh
          exact hu hh
        have hstep : broadcastGo sendOk (some u) msg ((cid0, h0) :: rest) w =
            ((if (send_to_connection sendOk w cid0 msg).1 then 1 else 0) +
               (broadcastGo sendOk (some u) msg rest
                 (send_to_connection sendOk w cid0 msg).2).1,
             (broadcastGo sendOk (some u) msg rest
                 (send_to_connection sendOk w cid0 msg).2).2.1,
             cid0 :: (broadcastGo sendOk (some u) msg rest
                 (send_to_connection sendOk w cid0 msg).2).2.2) := by
          simp [broadcastGo, hf, hu]
        have hP2 : ∀ cid ∈ us,
            findOwner cid ((send_to_connection sendOk w cid0 msg).2).user_connections
              = some u := by
          intro cid hm
          have hne : cid ≠ cid0 := fun hh => hcid0 (hh ▸ hm)
          rw [findOwner_after_send sendOk w cid0 msg cid hne]
          exact hP cid hm
        obtain ⟨ih1, _⟩ := ih (send_to_connection sendOk w cid0 msg).2 hP2
        rw [hstep]
        constructor
        · intro cid hm hmem
          rcases List.mem_cons.mp hmem with hmem | hmem
          · exact hcid0 (hmem ▸ hm)
          · exact ih1 cid hm hmem
        · intro hall
          exact absurd (hall (cid0, h0) (List.mem_cons_self _ _)) hcid0

/-!
## C8 — disconnect idempotence
-/

/-- C8: `disconnect` on an id absent from the connection map is a no-op that
raises nothing, so a second call on the same id behaves like one
(idempotence holds unconditionally); when the id is present it is removed
from the connection map and from its owning user's set, and a user entry is
deleted entirely once its set becomes empty — on a well-formed registry no
remaining user set holds the id and every remaining user set is
non-empty. -/
theorem disconnect_idempotent :
    (∀ w cid, lookupA cid w.active_connections = none → wsDisconnect w cid = w) ∧
    (∀ w cid, wsDisconnect (wsDisconnect w cid) cid = wsDisconnect w cid) ∧
    (∀ w cid h, WInv w → lookupA cid w.active_connections = some h →
      lookupA cid (wsDisconnect w cid).active_connections = none ∧
      (∀ p ∈ (wsDisconnect w cid).user_connections, cid ∉ p.2) ∧
      (∀ p ∈ (wsDisconnect w cid).user_connections, p.2 ≠ [])) := by
  refine ⟨?_, ?_, ?_⟩
  · intro w cid hl
    exact wsDisconnect_absent w cid hl
  · intro w cid
    exact wsDisconnect_absent _ _ (wsDisconnect_not_active w cid)
  · intro w cid h hw hl
    obtain ⟨hA, hU, hE, hO⟩ := hw
    have hamoC : (w.user_connections.filter (fun q => cid ∈ q.2)).length ≤ 1 :=
      amo_all hO cid
    have hEnt := removeFromUsers_entries (fun p hp => (hE p hp).1)
      (fun p hp => (hE p hp).2.1) hamoC
    refine ⟨wsDisconnect_not_active w cid, ?_, ?_⟩
    · intro p hp
      have hp2 : p ∈ removeFromUsers cid w.user_connections := by
        simpa [wsDisconnect, hl] using hp
      exact (hEnt p hp2).2.2.1
    · intro p hp
      have hp2 : p ∈ removeFromUsers cid w.user_connections := by
        simpa [wsDisconnect, hl] using hp
      exact (hEnt p hp2).1

/-- Witness for `disconnect_idempotent` on the concrete registry. -/
theorem disconnect_idempotent_witness :
    wsDisconnect wSample "zzz" = wSample ∧
    wsDisconnect (wsDisconnect wSample "c1") "c1" = wsDisconnect wSample "c1" ∧
    (lookupA "c1" (wsDisconnect wSample "c1").active_connections = none ∧
     (∀ p ∈ (wsDisconnect wSample "c1").user_connections, "c1" ∉ p.2) ∧
     (∀ p ∈ (wsDisconnect wSample "c1").user_connections, p.2 ≠ [])) :=
  ⟨disconnect_idempotent.1 wSample "zzz" (by decide),
   disconnect_idempotent.2.1 wSample "c1",
   disconnect_idempotent.2.2 wSample "c1" 1 (by decide) (by decide)⟩

/-!
## C9 — send/broadcast isolation
-/

/-- C9: `send_to_user` on a user with no registered connections returns `0`
and leaves the registry untouched; `broadcast` with `exclude_user` set
attempts no delivery to any connection owned by that user, and when that
user's connections are the only connections present it delivers nothing and
returns `0`. -/
theorem send_isolation :
    (∀ sendOk w uid msg, lookupA uid w.user_connections = none →
      send_to_user sendOk w uid msg = (0, w)) ∧
    (∀ sendOk w msg u us, WInv w → lookupA u w.user_connections = some us →
      (∀ cid ∈ us, cid ∉ (wsBroadcast sendOk w msg (some u)).2.2) ∧
      ((∀ p ∈ w.active_connections, p.1 ∈ us) →
        (wsBroadcast sendOk w msg (some u)).1 = 0 ∧
        (wsBroadcast sendOk w msg (some u)).2.2 = [])) := by
  constructor
  · intro sendOk w uid msg hl
    simp [send_to_user, hl]
  · intro sendOk w msg u us hw hl
    obtain ⟨hA, hU, hE, hO⟩ := hw
    have hmem : (u, us) ∈ w.user_connections := lookupA_some_mem hl
    have hP : ∀ cid ∈ us, findOwner cid w.user_connections = some u := by
      intro cid hc
      exact findOwner_of_unique (amo_all hO cid) hmem hc
    simpa [wsBroadcast] using
      broadcastGo_excluded sendOk msg u us w.active_connections w hP

/-- Witness for `send_isolation`: an unknown user on the sample registry,
and exclusion of alice on a registry where only alice's connections
exist. -/
theorem send_isolation_witness :
    send_to_user sendPass wSample "nobody" "m" = (0, wSample) ∧
    (∀ cid ∈ (["c1", "c2"] : List String),
      cid ∉ (wsBroadcast sendPass wAliceOnly "m" (some "alice")).2.2) ∧
    (wsBroadcast sendPass wAliceOnly "m" (some "alice")).1 = 0 ∧
    (wsBroadcast sendPass wAliceOnly "m" (some "alice")).2.2 = [] :=
  ⟨send_isolation.1 sendPass wSample "nobody" "m" (by decide),
   (send_isolation.2 sendPass wAliceOnly "m" "alice" ["c1", "c2"]
      (by decide) (by decide)).1,
   (send_isolation.2 sendPass wAliceOnly "m" "alice" ["c1", "c2"]
      (by decide) (by decide)).2 (by decide)⟩

/-!
## C10 — registry invariant
-/

/-- C10: the registry invariant — every connection id in any user's set is a
key of the connection map, every user's set is non-empty (and duplicate
free), and a connection id is owned by at most one user — is preserved by
`connect` (for a fresh generated id), by `disconnect`, by
`send_to_connection` including its failure-cleanup path, and by
`cleanup`. -/
theorem registry_invariant_preserved :
    ∀ w, WInv w →
      (∀ cid handle user, cid ∉ w.active_connections.map Prod.fst →
        WInv (wsConnect w cid handle user)) ∧
      (∀ cid, WInv (wsDisconnect w cid)) ∧
      (∀ sendOk cid msg, WInv (send_to_connection sendOk w cid msg).2) ∧
      WInv (wsCleanupConnections w) := by
  intro w hw
  exact ⟨fun cid handle user hf => WInv_connect w cid handle user hw hf,
         fun cid => WInv_disconnect w cid hw,
         fun sendOk cid msg => WInv_send sendOk w cid msg hw,
         WInv_cleanup w hw⟩

/-- Witness for `registry_invariant_preserved` on the concrete registry,
with a failing send oracle to exercise the failure-cleanup path. -/
theorem registry_invariant_preserved_witness :
    WInv (wsConnect wSample "c9" 9 (some "alice")) ∧
    WInv (wsDisconnect wSample "c1") ∧
    WInv (send_to_connection sendFail wSample "c1" "m").2 ∧
    WInv (wsCleanupConnections wSample) := by
  have h := registry_invariant_preserved wSample (by decide)
  exact ⟨h.1 "c9" 9 (some "alice") (by decide), h.2.1 "c1",
         h.2.2.1 sendFail "c1" "m", h.2.2.2⟩
